import Mathlib

/-!
# SPSCQueue: a verification development

Shallow embedding of the two ring buffers of the repository:

* `without_locks.cpp`: `LockFreeCircularBuffer<T>` (two atomic cursors, one slot sacrificed);
* `with_locks.cpp`: `CircularBuffer<T>` (mutex, two condition variables, explicit `size_`).

Conventions of the embedding.

* `size_t` is a natural number below `SIZE_MOD = 2 ^ 64`; every `+ 1` and `- 1` of the source
  is written with its wrap-around `% SIZE_MOD`.
* `std::vector<T>` is a `List α`; `buffer_[i]` with `i` out of range and `% 0` are undefined
  behaviour in C++ and are reported explicitly (`none` for the lock-free calls, `Outcome.undefined`
  for the blocking calls).
* A call of the lock-free buffer, and a critical section of the blocking buffer, is one atomic
  step: histories are sequences of such steps.
-/

/-- Number of values of the type `size_t` (64-bit target). -/
def SIZE_MOD : Nat := 18446744073709551616

/-- The exceptions `std::vector<T>(n)` can throw. -/
inductive AllocError where
  | length_error
  | bad_alloc
  deriving DecidableEq, Repr

/-- What the library and the machine contribute to the construction of a `std::vector<T>`:
`max_size` is `std::vector<T>::max_size()`, itself a `size_t`, and `available` is the number of
elements the allocator can provide at the time of the call. -/
structure Allocator where
  max_size : Nat
  available : Nat
  fits : max_size < SIZE_MOD

/-- The constructor `std::vector<T>(n)`, as used by `buffer_(size)`: `n` value-initialised
elements, `std::length_error` when `n` exceeds `max_size()`, `std::bad_alloc` when the allocator
cannot provide `n` elements (for `n == 0` nothing is requested). -/
def std.vector {α : Type} [Inhabited α] (env : Allocator) (n : Nat) : Except AllocError (List α) :=
  if n > env.max_size then Except.error AllocError.length_error
  else if n > env.available then Except.error AllocError.bad_alloc
  else Except.ok (List.replicate n default)

/-! ## `without_locks.cpp` -/

namespace without_locks

/-- The class `LockFreeCircularBuffer<T>`: its four data members. -/
structure LockFreeCircularBuffer (α : Type) where
  buffer_ : List α
  capacity_ : Nat
  head_ : Nat
  tail_ : Nat
  deriving DecidableEq, Repr

/-- The object built by the member initialisers of `LockFreeCircularBuffer(size_t size)` once
the storage has been allocated: `buffer_(size)` holds `size` value-initialised elements,
`capacity_(size)`, `head_(0)`, `tail_(0)`. Whether the allocation succeeds is the matter of
`LockFreeCircularBuffer.construct_with`. -/
def LockFreeCircularBuffer.construct {α : Type} [Inhabited α] (size : Nat) :
    LockFreeCircularBuffer α :=
  { buffer_ := List.replicate size default, capacity_ := size, head_ := 0, tail_ := 0 }

/-- The constructor `LockFreeCircularBuffer(size_t size)` run against an allocator: the only
failing path is the exception thrown by `buffer_(size)`; `size` itself is not inspected. -/
def LockFreeCircularBuffer.construct_with {α : Type} [Inhabited α] (env : Allocator)
    (size : Nat) : Except AllocError (LockFreeCircularBuffer α) :=
  match (std.vector env size : Except AllocError (List α)) with
  | Except.error e => Except.error e
  | Except.ok buffer => Except.ok { buffer_ := buffer, capacity_ := size, head_ := 0, tail_ := 0 }

/-- The method `bool enqueue(const T& elem)`. The result is `none` where the C++ is undefined
(`% capacity_` with `capacity_ == 0`, or `buffer_[tail]` out of range). -/
def LockFreeCircularBuffer.enqueue {α : Type} (q : LockFreeCircularBuffer α) (elem : α) :
    Option (Bool × LockFreeCircularBuffer α) :=
  let tail := q.tail_
  if q.capacity_ = 0 then none
  else
    let next_tail := ((tail + 1) % SIZE_MOD) % q.capacity_
    if next_tail = q.head_ then
      -- Queue is full
      some (false, q)
    else if tail < q.buffer_.length then
      some (true, { q with buffer_ := q.buffer_.set tail elem, tail_ := next_tail })
    else none

/-- The method `bool dequeue(T& item)`: the result carries the returned flag, the value of the
out-parameter `item` after the call, and the buffer. `none` where the C++ is undefined. -/
def LockFreeCircularBuffer.dequeue {α : Type} (q : LockFreeCircularBuffer α) (item : α) :
    Option (Bool × α × LockFreeCircularBuffer α) :=
  let head := q.head_
  if head = q.tail_ then
    -- Queue is empty
    some (false, item, q)
  else
    match q.buffer_[head]? with
    | none => none
    | some x =>
      if q.capacity_ = 0 then none
      else some (true, x, { q with head_ := ((head + 1) % SIZE_MOD) % q.capacity_ })

/-- One call made on the buffer by its user: `enqueue(elem)`, or `dequeue(item)` where `item`
is the content of the caller's variable before the call. -/
inductive Call (α : Type) where
  | enqueue (elem : α)
  | dequeue (item : α)
  deriving DecidableEq, Repr

/-- A buffer together with the record of what its calls did so far: the arguments of the calls
of `enqueue` that returned `true`, and the items delivered by the calls of `dequeue` that
returned `true`, both in call order. -/
structure History (α : Type) where
  queue : LockFreeCircularBuffer α
  enqueued : List α
  dequeued : List α
  deriving DecidableEq, Repr

/-- The history of a freshly constructed buffer. -/
def History.fresh {α : Type} [Inhabited α] (size : Nat) : History α :=
  { queue := LockFreeCircularBuffer.construct size, enqueued := [], dequeued := [] }

/-- Apply one call and record its effect (`none`: the call is undefined behaviour). -/
def History.call {α : Type} (h : History α) : Call α → Option (History α)
  | Call.enqueue elem =>
    match h.queue.enqueue elem with
    | none => none
    | some (true, q) => some { queue := q, enqueued := h.enqueued ++ [elem], dequeued := h.dequeued }
    | some (false, q) => some { h with queue := q }
  | Call.dequeue item =>
    match h.queue.dequeue item with
    | none => none
    | some (true, x, q) => some { queue := q, enqueued := h.enqueued, dequeued := h.dequeued ++ [x] }
    | some (false, _, q) => some { h with queue := q }

/-- Apply a finite sequence of calls, in order. -/
def History.run {α : Type} (h : History α) : List (Call α) → Option (History α)
  | [] => some h
  | c :: cs =>
    match h.call c with
    | none => none
    | some h1 => h1.run cs

/-- Effective occupancy: successful enqueues minus successful dequeues (an integer, so that a
deficit would show as a negative number). -/
def History.occupancy {α : Type} (h : History α) : Int :=
  (h.enqueued.length : Int) - (h.dequeued.length : Int)

/-- The two threads started by `main`. -/
inductive Thread where
  | producer_thread
  | consumer_thread
  deriving DecidableEq, Repr

/-- State of the demo program: the shared queue, the loop counter `i` of `producer`, the loop
counter `i` of `consumer`, and the items printed after `Consumed: `, in order. -/
structure Demo where
  queue : LockFreeCircularBuffer Int
  produced : Nat
  consumed : Nat
  output : List Int
  deriving DecidableEq, Repr

/-- One scheduling of the thread running `producer`: while `i < items_to_produce` it makes one
call `queue.enqueue(i)` of its retry loop and moves to `i + 1` when the call returned `true`;
afterwards the thread has finished and nothing happens. -/
def producer (items_to_produce : Nat) (s : Demo) : Option Demo :=
  if s.produced < items_to_produce then
    match s.queue.enqueue (s.produced : Int) with
    | none => none
    | some (true, q) => some { s with queue := q, produced := s.produced + 1 }
    | some (false, q) => some { s with queue := q }
  else some s

/-- One scheduling of the thread running `consumer`: while `i < items_to_consume` it makes one
call `queue.dequeue(item)` of its retry loop and, when the call returned `true`, prints `item`
and moves to `i + 1`. The variable `item` is uninitialised before the call; it is read only
after a successful call, so its initial content (here `0`) is never observed. -/
def consumer (items_to_consume : Nat) (s : Demo) : Option Demo :=
  if s.consumed < items_to_consume then
    match s.queue.dequeue (0 : Int) with
    | none => none
    | some (true, item, q) =>
      some { s with queue := q, consumed := s.consumed + 1, output := s.output ++ [item] }
    | some (false, _, q) => some { s with queue := q }
  else some s

/-- Run the two threads under a schedule: the list says whose call comes next. -/
def Demo.run (items_to_produce items_to_consume : Nat) (s : Demo) : List Thread → Option Demo
  | [] => some s
  | Thread.producer_thread :: ts =>
    match producer items_to_produce s with
    | none => none
    | some s1 => Demo.run items_to_produce items_to_consume s1 ts
  | Thread.consumer_thread :: ts =>
    match consumer items_to_consume s with
    | none => none
    | some s1 => Demo.run items_to_produce items_to_consume s1 ts

/-- The function `main`: `queue_capacity = 5`, `items_to_produce = 10`, `items_to_consume = 10`,
the two threads interleaved as the schedule says. -/
def main (schedule : List Thread) : Option Demo :=
  Demo.run 10 10
    { queue := LockFreeCircularBuffer.construct 5, produced := 0, consumed := 0, output := [] }
    schedule

end without_locks

/-! ## `with_locks.cpp` -/

namespace with_locks

/-- The two condition variables of `CircularBuffer`. -/
inductive CondVar where
  | cond_not_full_
  | cond_not_empty_
  deriving DecidableEq, Repr

/-- How a call of a blocking method proceeds once it holds the mutex: it runs to completion
(`done`, with the condition variable it signalled by `notify_one`), it finds its wait predicate
false and suspends on a condition variable (`blocked`), or it is undefined behaviour. -/
inductive Outcome (β : Type) where
  | done (result : β) (notified : CondVar)
  | blocked (waits_on : CondVar)
  | undefined
  deriving DecidableEq, Repr

/-- The class `CircularBuffer<T>`: its five data members (the mutex and the condition variables
are accounted for in `Outcome` and in `Demo`). -/
structure CircularBuffer (α : Type) where
  buffer_ : List α
  capacity_ : Nat
  head_ : Nat
  tail_ : Nat
  size_ : Nat
  deriving DecidableEq, Repr

/-- The object built by the member initialisers of `CircularBuffer(size_t size)` once the
storage has been allocated: `buffer_(size)`, `capacity_(size)`, `head_(0)`, `tail_(0)`,
`size_(0)`. Whether the allocation succeeds is the matter of `CircularBuffer.construct_with`. -/
def CircularBuffer.construct {α : Type} [Inhabited α] (size : Nat) : CircularBuffer α :=
  { buffer_ := List.replicate size default, capacity_ := size, head_ := 0, tail_ := 0, size_ := 0 }

/-- The constructor `CircularBuffer(size_t size)` run against an allocator: the only failing
path is the exception thrown by `buffer_(size)`; `size` itself is not inspected. -/
def CircularBuffer.construct_with {α : Type} [Inhabited α] (env : Allocator) (size : Nat) :
    Except AllocError (CircularBuffer α) :=
  match (std.vector env size : Except AllocError (List α)) with
  | Except.error e => Except.error e
  | Except.ok buffer =>
    Except.ok { buffer_ := buffer, capacity_ := size, head_ := 0, tail_ := 0, size_ := 0 }

/-- The method `void enqueue(const T& elem)`, from the moment the mutex is held:
`cond_not_full_.wait(lock, size_ < capacity_)`, the three assignments, then
`cond_not_empty_.notify_one()`. (`% capacity_` is evaluated only when `size_ < capacity_`, so
never with `capacity_ == 0`.) -/
def CircularBuffer.enqueue {α : Type} (q : CircularBuffer α) (elem : α) :
    Outcome (CircularBuffer α) :=
  if q.size_ < q.capacity_ then
    if q.tail_ < q.buffer_.length then
      Outcome.done
        { q with
          buffer_ := q.buffer_.set q.tail_ elem
          tail_ := ((q.tail_ + 1) % SIZE_MOD) % q.capacity_
          size_ := (q.size_ + 1) % SIZE_MOD }
        CondVar.cond_not_empty_
    else Outcome.undefined
  else Outcome.blocked CondVar.cond_not_full_

/-- The method `std::optional<T> dequeue()`, from the moment the mutex is held:
`cond_not_empty_.wait(lock, size_ > 0)`, the read and the two assignments, then
`cond_not_empty_.notify_one()`, then `return item`. -/
def CircularBuffer.dequeue {α : Type} (q : CircularBuffer α) :
    Outcome (Option α × CircularBuffer α) :=
  if q.size_ > 0 then
    match q.buffer_[q.head_]? with
    | none => Outcome.undefined
    | some item =>
      if q.capacity_ = 0 then Outcome.undefined
      else
        Outcome.done
          (some item,
            { q with
              head_ := ((q.head_ + 1) % SIZE_MOD) % q.capacity_
              size_ := (q.size_ + SIZE_MOD - 1) % SIZE_MOD })
          CondVar.cond_not_empty_
  else Outcome.blocked CondVar.cond_not_empty_

/-- One call made on the buffer by its user. -/
inductive Call (α : Type) where
  | enqueue (elem : α)
  | dequeue
  deriving DecidableEq, Repr

/-- A buffer together with the record of its completed calls: the arguments of the completed
calls of `enqueue` and the values returned by the completed calls of `dequeue`, in call order. -/
structure History (α : Type) where
  queue : CircularBuffer α
  enqueued : List α
  dequeued : List α
  deriving DecidableEq, Repr

/-- The history of a freshly constructed buffer. -/
def History.fresh {α : Type} [Inhabited α] (size : Nat) : History α :=
  { queue := CircularBuffer.construct size, enqueued := [], dequeued := [] }

/-- Apply one call that completes and record its effect. The result is `none` when the call does
not complete: it suspends, it is undefined behaviour, or `dequeue` returns an empty optional. -/
def History.call {α : Type} (h : History α) : Call α → Option (History α)
  | Call.enqueue elem =>
    match h.queue.enqueue elem with
    | Outcome.done q _ =>
      some { queue := q, enqueued := h.enqueued ++ [elem], dequeued := h.dequeued }
    | _ => none
  | Call.dequeue =>
    match h.queue.dequeue with
    | Outcome.done (some item, q) _ =>
      some { queue := q, enqueued := h.enqueued, dequeued := h.dequeued ++ [item] }
    | _ => none

/-- Apply a finite sequence of calls, each of which completes, in order. -/
def History.run {α : Type} (h : History α) : List (Call α) → Option (History α)
  | [] => some h
  | c :: cs =>
    match h.call c with
    | none => none
    | some h1 => h1.run cs

/-- The arguments of the calls of `enqueue` in a sequence of calls, in order. -/
def enqueueArgs {α : Type} : List (Call α) → List α
  | [] => []
  | Call.enqueue elem :: cs => elem :: enqueueArgs cs
  | Call.dequeue :: cs => enqueueArgs cs

/-- The number of calls of `dequeue` in a sequence of calls. -/
def dequeueCount {α : Type} : List (Call α) → Nat
  | [] => 0
  | Call.enqueue _ :: cs => dequeueCount cs
  | Call.dequeue :: cs => dequeueCount cs + 1

/-- A sequence of calls in which each call is made only when it can complete, for a buffer that
holds `size` items out of `capacity`: `enqueue` when `size < capacity`, `dequeue` when
`size > 0`. -/
def admissible {α : Type} (capacity : Nat) : Nat → List (Call α) → Bool
  | _, [] => true
  | size, Call.enqueue _ :: cs => decide (size < capacity) && admissible capacity (size + 1) cs
  | size, Call.dequeue :: cs => decide (size > 0) && admissible capacity (size - 1) cs

/-- The two threads started by `main`. -/
inductive Thread where
  | producer_thread
  | consumer_thread
  deriving DecidableEq, Repr

/-- A thread is runnable, or suspended inside `wait` on a condition variable. -/
inductive Status where
  | ready
  | waiting (cv : CondVar)
  deriving DecidableEq, Repr

/-- State of the demo program: the shared queue, the loop counter `i` of `producer`, the loop
counter `i` of `consumer`, the items printed after `Consumed: `, and whether each thread is
runnable or suspended. The mutex is held for the whole of a call except while the caller is
suspended in `wait`, so a scheduling step is a whole critical section. -/
structure Demo where
  queue : CircularBuffer Int
  produced : Nat
  consumed : Nat
  output : List Int
  producer_status : Status
  consumer_status : Status
  deriving DecidableEq, Repr

/-- The effect of `notify_one` on a condition variable: a thread suspended on that condition
variable, if there is one, becomes runnable; otherwise the signal is lost. -/
def notify_one (cv : CondVar) (s : Demo) : Demo :=
  if s.producer_status = Status.waiting cv then { s with producer_status := Status.ready }
  else if s.consumer_status = Status.waiting cv then { s with consumer_status := Status.ready }
  else s

/-- One scheduling of the thread running `producer`. A runnable producer with `i <
items_to_produce` takes the mutex and runs `queue.enqueue(i)`: the call completes (signalling
its condition variable) and the loop moves to `i + 1`, or the wait predicate is false and the
thread suspends. A suspended or finished thread does nothing (no spurious wake-up). -/
def producer (items_to_produce : Nat) (s : Demo) : Option Demo :=
  if s.produced < items_to_produce ∧ s.producer_status = Status.ready then
    match s.queue.enqueue (s.produced : Int) with
    | Outcome.done q cv => some (notify_one cv { s with queue := q, produced := s.produced + 1 })
    | Outcome.blocked cv => some { s with producer_status := Status.waiting cv }
    | Outcome.undefined => none
  else some s

/-- One scheduling of the thread running `consumer`. A runnable consumer with `i <
items_to_consume` takes the mutex and runs `queue.dequeue()`: the call completes (signalling its
condition variable), and when the optional holds an item the item is printed and the loop moves
to `i + 1`; or the wait predicate is false and the thread suspends. -/
def consumer (items_to_consume : Nat) (s : Demo) : Option Demo :=
  if s.consumed < items_to_consume ∧ s.consumer_status = Status.ready then
    match s.queue.dequeue with
    | Outcome.done (some item, q) cv =>
      some (notify_one cv
        { s with queue := q, consumed := s.consumed + 1, output := s.output ++ [item] })
    | Outcome.done (none, q) cv => some (notify_one cv { s with queue := q })
    | Outcome.blocked cv => some { s with consumer_status := Status.waiting cv }
    | Outcome.undefined => none
  else some s

/-- Run the two threads under a schedule: the list says which thread is scheduled next. -/
def Demo.run (items_to_produce items_to_consume : Nat) (s : Demo) : List Thread → Option Demo
  | [] => some s
  | Thread.producer_thread :: ts =>
    match producer items_to_produce s with
    | none => none
    | some s1 => Demo.run items_to_produce items_to_consume s1 ts
  | Thread.consumer_thread :: ts =>
    match consumer items_to_consume s with
    | none => none
    | some s1 => Demo.run items_to_produce items_to_consume s1 ts

/-- The state in which the two threads are started on a queue of the given capacity. -/
def Demo.start (queue_capacity : Nat) : Demo :=
  { queue := CircularBuffer.construct queue_capacity, produced := 0, consumed := 0, output := [],
    producer_status := Status.ready, consumer_status := Status.ready }

/-- The function `main`: `queue_capacity = 5`, `items_to_produce = 10`, `items_to_consume = 10`,
the two threads scheduled as the list says. -/
def main (schedule : List Thread) : Option Demo :=
  Demo.run 10 10 (Demo.start 5) schedule

/-- Both threads have completed their loops. -/
def Demo.finished (items_to_produce items_to_consume : Nat) (s : Demo) : Prop :=
  s.produced = items_to_produce ∧ s.consumed = items_to_consume

end with_locks

/-! ## Abstraction: the items held by a ring -/

/-- The contents of the `n` slots of the ring `buf` that start at index `head` and wrap around
at `cap`: slots `head`, `head + 1`, ..., `head + n - 1` modulo `cap`, in this order. -/
def ringItems {α : Type} (buf : List α) (cap head n : Nat) : List α :=
  (List.range n).filterMap (fun k => buf[(head + k) % cap]?)

/-- Representation invariant of the lock-free buffer holding `n` items: a positive capacity
that fits `size_t`, storage of that length, `head_` in range, fewer than `capacity_` items,
and `tail_` the slot `n` places after `head_`. -/
structure without_locks.LockFreeCircularBuffer.Holds {α : Type}
    (q : without_locks.LockFreeCircularBuffer α) (n : Nat) : Prop where
  cap_pos : 0 < q.capacity_
  cap_lt : q.capacity_ < SIZE_MOD
  len : q.buffer_.length = q.capacity_
  head_lt : q.head_ < q.capacity_
  occ_lt : n < q.capacity_
  tail_eq : q.tail_ = (q.head_ + n) % q.capacity_

/-- Invariant of a lock-free history: the buffer is well formed and holds, in order, exactly the
values enqueued and not yet dequeued. -/
structure without_locks.History.Valid {α : Type} (h : without_locks.History α) (n : Nat) :
    Prop where
  holds : h.queue.Holds n
  items : h.enqueued = h.dequeued ++ ringItems h.queue.buffer_ h.queue.capacity_ h.queue.head_ n

/-- Representation invariant of the blocking buffer: a positive capacity that fits `size_t`,
storage of that length, `head_` in range, at most `capacity_` items, and `tail_` the slot
`size_` places after `head_`. -/
structure with_locks.CircularBuffer.WellFormed {α : Type} (q : with_locks.CircularBuffer α) :
    Prop where
  cap_pos : 0 < q.capacity_
  cap_lt : q.capacity_ < SIZE_MOD
  len : q.buffer_.length = q.capacity_
  head_lt : q.head_ < q.capacity_
  size_le : q.size_ ≤ q.capacity_
  tail_eq : q.tail_ = (q.head_ + q.size_) % q.capacity_

/-- Invariant of a blocking history: the buffer is well formed and holds, in order, exactly the
values enqueued and not yet dequeued. -/
structure with_locks.History.Valid {α : Type} (h : with_locks.History α) : Prop where
  wf : h.queue.WellFormed
  items : h.enqueued =
    h.dequeued ++ ringItems h.queue.buffer_ h.queue.capacity_ h.queue.head_ h.queue.size_

/-- The values `0, 1, ..., n - 1` as the `int` arguments passed by `producer`. -/
def firstInts (n : Nat) : List Int :=
  List.map Int.ofNat (List.range n)

/-- Invariant of the lock-free demo: the queue is well formed, the values `0 .. produced - 1`
enqueued so far are the items printed followed by the items still in the ring, the producer has
not run past its bound, and the consumer has printed one item per completed loop round. -/
structure without_locks.Demo.Valid (items_to_produce : Nat) (s : without_locks.Demo) (n : Nat) :
    Prop where
  holds : s.queue.Holds n
  items : firstInts s.produced =
    s.output ++ ringItems s.queue.buffer_ s.queue.capacity_ s.queue.head_ n
  bound : s.produced ≤ items_to_produce
  printed : s.output.length = s.consumed

/-- Invariant of the blocking demo: the queue is well formed, the values `0 .. produced - 1`
enqueued so far are the items printed followed by the items still in the ring, the producer has
not run past its bound, and the consumer has printed one item per completed loop round. -/
structure with_locks.Demo.Valid (items_to_produce : Nat) (s : with_locks.Demo) : Prop where
  wf : s.queue.WellFormed
  items : firstInts s.produced =
    s.output ++ ringItems s.queue.buffer_ s.queue.capacity_ s.queue.head_ s.queue.size_
  bound : s.produced ≤ items_to_produce
  printed : s.output.length = s.consumed

/-! ## Example inputs -/

/-- An allocator with `max_size() == 2^61 - 1` that has no memory left to give. -/
def exampleAllocator : Allocator :=
  { max_size := 2305843009213693951, available := 0, fits := by decide }

/-- Ten calls on a lock-free ring of capacity 5: a dequeue on the empty ring, five enqueues of
which the fifth finds the ring full, a dequeue, two enqueues of which the second finds the ring
full, and a dequeue. -/
def without_locks.exampleCalls : List (without_locks.Call Int) :=
  [without_locks.Call.dequeue 0, without_locks.Call.enqueue 10, without_locks.Call.enqueue 11,
    without_locks.Call.enqueue 12, without_locks.Call.enqueue 13, without_locks.Call.enqueue 14,
    without_locks.Call.dequeue 0, without_locks.Call.enqueue 15, without_locks.Call.enqueue 16,
    without_locks.Call.dequeue 0]

/-- The schedule that lets the producer and the consumer make one call each, ten times. -/
def without_locks.alternating : List without_locks.Thread :=
  List.flatten (List.replicate 10
    [without_locks.Thread.producer_thread, without_locks.Thread.consumer_thread])

/-- Enqueues of `0..9` interleaved with ten dequeues so that on a ring of capacity 5 every call
can complete: `0..4` in, three out, `5..7` in, five out, `8, 9` in, two out. -/
def with_locks.exampleCalls : List (with_locks.Call Int) :=
  [with_locks.Call.enqueue 0, with_locks.Call.enqueue 1, with_locks.Call.enqueue 2,
    with_locks.Call.enqueue 3, with_locks.Call.enqueue 4,
    with_locks.Call.dequeue, with_locks.Call.dequeue, with_locks.Call.dequeue,
    with_locks.Call.enqueue 5, with_locks.Call.enqueue 6, with_locks.Call.enqueue 7,
    with_locks.Call.dequeue, with_locks.Call.dequeue, with_locks.Call.dequeue,
    with_locks.Call.dequeue, with_locks.Call.dequeue,
    with_locks.Call.enqueue 8, with_locks.Call.enqueue 9,
    with_locks.Call.dequeue, with_locks.Call.dequeue]

/-- The schedule that runs the producer and the consumer in turn, ten times. -/
def with_locks.alternating : List with_locks.Thread :=
  List.flatten (List.replicate 10
    [with_locks.Thread.producer_thread, with_locks.Thread.consumer_thread])

/-- The schedule in which the producer thread is scheduled `k` times and then the consumer
thread `k` times. -/
def with_locks.producerFirst (k : Nat) : List with_locks.Thread :=
  List.replicate k with_locks.Thread.producer_thread ++
    List.replicate k with_locks.Thread.consumer_thread

/-- The state of the blocking demo in which the producer has completed five calls and is
suspended on `cond_not_full_`, the consumer has completed five calls and is suspended on
`cond_not_empty_`, and the ring is empty. -/
def with_locks.deadlocked : with_locks.Demo :=
  { queue := { buffer_ := [0, 1, 2, 3, 4], capacity_ := 5, head_ := 0, tail_ := 0, size_ := 0 },
    produced := 5, consumed := 5, output := [0, 1, 2, 3, 4],
    producer_status := with_locks.Status.waiting with_locks.CondVar.cond_not_full_,
    consumer_status := with_locks.Status.waiting with_locks.CondVar.cond_not_empty_ }

/-! ## Requests served by either variant -/

/-- A request made to a ring buffer of either variant: store a value, or take one out. -/
inductive Request (α : Type) where
  | enqueue (elem : α)
  | dequeue
  deriving DecidableEq, Repr

/-- What the requester observes of one request. `refused`: the lock-free call returned `false`;
for the blocking buffer, the call found its wait predicate false and would suspend. -/
inductive Observation (α : Type) where
  | accepted
  | delivered (item : α)
  | refused
  deriving DecidableEq, Repr

/-- Serve one request on the lock-free buffer (`item` is the content of the out-parameter before
a `dequeue`); `none` where the call is undefined. -/
def without_locks.LockFreeCircularBuffer.serve {α : Type}
    (q : without_locks.LockFreeCircularBuffer α) (item : α) :
    Request α → Option (Observation α × without_locks.LockFreeCircularBuffer α)
  | Request.enqueue elem =>
    match q.enqueue elem with
    | none => none
    | some (true, q1) => some (Observation.accepted, q1)
    | some (false, q1) => some (Observation.refused, q1)
  | Request.dequeue =>
    match q.dequeue item with
    | none => none
    | some (true, x, q1) => some (Observation.delivered x, q1)
    | some (false, _, q1) => some (Observation.refused, q1)

/-- Serve a sequence of requests on the lock-free buffer and collect the observations. -/
def without_locks.LockFreeCircularBuffer.serveAll {α : Type}
    (q : without_locks.LockFreeCircularBuffer α) (item : α) :
    List (Request α) → Option (List (Observation α))
  | [] => some []
  | r :: rs =>
    match q.serve item r with
    | none => none
    | some (o, q1) =>
      match q1.serveAll item rs with
      | none => none
      | some os => some (o :: os)

/-- Serve one request on the blocking buffer. A call whose wait predicate is false would suspend:
it is observed as `refused` and the buffer is as before. `none` where the call is undefined or
`dequeue` returns an empty optional. -/
def with_locks.CircularBuffer.serve {α : Type} (q : with_locks.CircularBuffer α) :
    Request α → Option (Observation α × with_locks.CircularBuffer α)
  | Request.enqueue elem =>
    match q.enqueue elem with
    | with_locks.Outcome.done q1 _ => some (Observation.accepted, q1)
    | with_locks.Outcome.blocked _ => some (Observation.refused, q)
    | with_locks.Outcome.undefined => none
  | Request.dequeue =>
    match q.dequeue with
    | with_locks.Outcome.done (some x, q1) _ => some (Observation.delivered x, q1)
    | with_locks.Outcome.done (none, _) _ => none
    | with_locks.Outcome.blocked _ => some (Observation.refused, q)
    | with_locks.Outcome.undefined => none

/-- Serve a sequence of requests on the blocking buffer and collect the observations. -/
def with_locks.CircularBuffer.serveAll {α : Type} (q : with_locks.CircularBuffer α) :
    List (Request α) → Option (List (Observation α))
  | [] => some []
  | r :: rs =>
    match q.serve r with
    | none => none
    | some (o, q1) =>
      match q1.serveAll rs with
      | none => none
      | some os => some (o :: os)

/-- The relation kept between a lock-free buffer and a blocking buffer that serve the same
requests: both well formed, the lock-free ring one slot larger, and the same items held in the
same order. -/
structure Simulates {α : Type} (q : without_locks.LockFreeCircularBuffer α)
    (b : with_locks.CircularBuffer α) : Prop where
  holds : q.Holds b.size_
  wf : b.WellFormed
  cap : q.capacity_ = b.capacity_ + 1
  items : ringItems q.buffer_ q.capacity_ q.head_ b.size_ =
    ringItems b.buffer_ b.capacity_ b.head_ b.size_

/-- The state of `with_locks::main` after the producer thread was scheduled six times and the
consumer thread once: the producer is suspended in its sixth call of `enqueue` although the ring
has a free slot again. -/
def with_locks.producerSuspended : with_locks.Demo :=
  { queue := { buffer_ := [0, 1, 2, 3, 4], capacity_ := 5, head_ := 1, tail_ := 0, size_ := 4 },
    produced := 5, consumed := 1, output := [0],
    producer_status := with_locks.Status.waiting with_locks.CondVar.cond_not_full_,
    consumer_status := with_locks.Status.ready }

/-! ## Arithmetic of the cursors -/

theorem ring_add_mod (h n cap : Nat) (hh : h < cap) (hn : n ≤ cap) :
    (h + n) % cap = if h + n < cap then h + n else h + n - cap := by
  split_ifs with hlt
  · exact Nat.mod_eq_of_lt hlt
  · rw [Nat.mod_eq_sub_mod (by omega)]
    exact Nat.mod_eq_of_lt (by omega)

theorem ring_succ_mod (x cap : Nat) (hx : x < cap) (hc : cap < SIZE_MOD) :
    ((x + 1) % SIZE_MOD) % cap = if x + 1 < cap then x + 1 else 0 := by
  have h1 : (x + 1) % SIZE_MOD = x + 1 := Nat.mod_eq_of_lt (by omega)
  rw [h1, ring_add_mod x 1 cap hx (by omega)]
  split_ifs <;> omega

theorem ringItems_pop {α : Type} (buf : List α) (cap head n : Nat) (x : α)
    (hh : head < cap) (hx : buf[head]? = some x) :
    ringItems buf cap head (n + 1) = x :: ringItems buf cap ((head + 1) % cap) n := by
  unfold ringItems
  rw [List.range_succ_eq_map, List.filterMap_cons]
  simp only [Nat.add_zero, Nat.mod_eq_of_lt hh, hx, List.filterMap_map]
  congr 1
  apply List.filterMap_congr
  intro k _
  simp only [Function.comp, Nat.succ_eq_add_one]
  rw [Nat.mod_add_mod]
  congr 2
  omega

theorem ringItems_push {α : Type} (buf : List α) (cap head n : Nat) (v : α)
    (hh : head < cap) (hn : n < cap) (hl : buf.length = cap) :
    ringItems (buf.set ((head + n) % cap) v) cap head (n + 1) = ringItems buf cap head n ++ [v] := by
  unfold ringItems
  rw [List.range_succ, List.filterMap_append]
  have ht : (head + n) % cap < buf.length := by rw [hl]; exact Nat.mod_lt _ (by omega)
  congr 1
  · apply List.filterMap_congr
    intro k hk
    have hk1 : k < n := List.mem_range.mp hk
    apply List.getElem?_set_ne
    rw [ring_add_mod head n cap hh (by omega), ring_add_mod head k cap hh (by omega)]
    split_ifs <;> omega
  · simp [List.getElem?_set_self ht]

/-! ## The lock-free calls on a well-formed buffer -/

theorem lf_tail_lt {α : Type} (q : without_locks.LockFreeCircularBuffer α) (n : Nat)
    (hq : q.Holds n) : q.tail_ < q.capacity_ := by
  rw [hq.tail_eq]
  exact Nat.mod_lt _ hq.cap_pos

theorem lf_full_iff {α : Type} (q : without_locks.LockFreeCircularBuffer α) (n : Nat)
    (hq : q.Holds n) :
    ((q.tail_ + 1) % SIZE_MOD) % q.capacity_ = q.head_ ↔ n + 1 = q.capacity_ := by
  have ht := hq.tail_eq
  rw [ring_add_mod _ _ _ hq.head_lt (Nat.le_of_lt hq.occ_lt)] at ht
  rw [ring_succ_mod _ _ (lf_tail_lt q n hq) hq.cap_lt]
  have := hq.head_lt
  have := hq.occ_lt
  split_ifs at ht ⊢ <;> omega

theorem lf_empty_iff {α : Type} (q : without_locks.LockFreeCircularBuffer α) (n : Nat)
    (hq : q.Holds n) : q.head_ = q.tail_ ↔ n = 0 := by
  have ht := hq.tail_eq
  rw [ring_add_mod _ _ _ hq.head_lt (Nat.le_of_lt hq.occ_lt)] at ht
  have := hq.head_lt
  have := hq.occ_lt
  split_ifs at ht <;> omega

theorem lf_occupancy_eq {α : Type} (q : without_locks.LockFreeCircularBuffer α) (n : Nat)
    (hq : q.Holds n) : (q.tail_ + q.capacity_ - q.head_) % q.capacity_ = n := by
  have ht := hq.tail_eq
  rw [ring_add_mod _ _ _ hq.head_lt (Nat.le_of_lt hq.occ_lt)] at ht
  have h1 := hq.head_lt
  have h2 := hq.occ_lt
  split_ifs at ht with hlt
  · have e : q.tail_ + q.capacity_ - q.head_ = n + q.capacity_ := by omega
    rw [e, Nat.add_mod_right]
    exact Nat.mod_eq_of_lt h2
  · have e : q.tail_ + q.capacity_ - q.head_ = n := by omega
    rw [e]
    exact Nat.mod_eq_of_lt h2

theorem lf_enqueue_ok {α : Type} (q : without_locks.LockFreeCircularBuffer α) (n : Nat) (v : α)
    (hq : q.Holds n) (hn : n + 1 < q.capacity_) :
    ∃ q1, q.enqueue v = some (true, q1) ∧ q1.Holds (n + 1) ∧ q1.capacity_ = q.capacity_ ∧
      q1.head_ = q.head_ ∧
      ringItems q1.buffer_ q1.capacity_ q1.head_ (n + 1) =
        ringItems q.buffer_ q.capacity_ q.head_ n ++ [v] := by
  have hfull := lf_full_iff q n hq
  have hne : ¬ ((q.tail_ + 1) % SIZE_MOD) % q.capacity_ = q.head_ := by
    rw [hfull]; omega
  have htl : q.tail_ < q.buffer_.length := by rw [hq.len]; exact lf_tail_lt q n hq
  have hc : q.capacity_ ≠ 0 := Nat.pos_iff_ne_zero.mp hq.cap_pos
  refine ⟨{ q with buffer_ := q.buffer_.set q.tail_ v,
                   tail_ := ((q.tail_ + 1) % SIZE_MOD) % q.capacity_ }, ?_, ?_, rfl, rfl, ?_⟩
  · simp [without_locks.LockFreeCircularBuffer.enqueue, hc, hne, htl]
  · refine ⟨hq.cap_pos, hq.cap_lt, ?_, hq.head_lt, hn, ?_⟩
    · simp [hq.len]
    · show ((q.tail_ + 1) % SIZE_MOD) % q.capacity_ = (q.head_ + (n + 1)) % q.capacity_
      have ht := hq.tail_eq
      rw [ring_add_mod _ _ _ hq.head_lt (Nat.le_of_lt hq.occ_lt)] at ht
      rw [ring_succ_mod _ _ (lf_tail_lt q n hq) hq.cap_lt,
        ring_add_mod _ _ _ hq.head_lt (Nat.le_of_lt hn)]
      have := hq.head_lt
      split_ifs at ht ⊢ <;> omega
  · show ringItems (q.buffer_.set q.tail_ v) q.capacity_ q.head_ (n + 1) = _
    rw [hq.tail_eq]
    exact ringItems_push _ _ _ _ _ hq.head_lt hq.occ_lt hq.len

theorem lf_enqueue_full {α : Type} (q : without_locks.LockFreeCircularBuffer α) (n : Nat) (v : α)
    (hq : q.Holds n) (hn : n + 1 = q.capacity_) : q.enqueue v = some (false, q) := by
  have hfull := (lf_full_iff q n hq).mpr hn
  have hc : q.capacity_ ≠ 0 := Nat.pos_iff_ne_zero.mp hq.cap_pos
  simp [without_locks.LockFreeCircularBuffer.enqueue, hc, hfull]

theorem lf_dequeue_ok {α : Type} (q : without_locks.LockFreeCircularBuffer α) (n : Nat)
    (item : α) (hq : q.Holds (n + 1)) :
    ∃ x q1, q.dequeue item = some (true, x, q1) ∧ q1.Holds n ∧ q1.capacity_ = q.capacity_ ∧
      q.buffer_[q.head_]? = some x ∧ q1.buffer_ = q.buffer_ ∧ q1.tail_ = q.tail_ ∧
      ringItems q.buffer_ q.capacity_ q.head_ (n + 1) =
        x :: ringItems q1.buffer_ q1.capacity_ q1.head_ n := by
  have hne : ¬ q.head_ = q.tail_ := by
    rw [lf_empty_iff q (n + 1) hq]; omega
  have hc : q.capacity_ ≠ 0 := Nat.pos_iff_ne_zero.mp hq.cap_pos
  have hhl : q.head_ < q.buffer_.length := by rw [hq.len]; exact hq.head_lt
  have hx : q.buffer_[q.head_]? = some (q.buffer_[q.head_]) := List.getElem?_eq_getElem hhl
  have hnext := ring_succ_mod q.head_ q.capacity_ hq.head_lt hq.cap_lt
  have hnext2 : (q.head_ + 1) % SIZE_MOD = q.head_ + 1 :=
    Nat.mod_eq_of_lt (by have := hq.head_lt; have := hq.cap_lt; omega)
  refine ⟨q.buffer_[q.head_], { q with head_ := ((q.head_ + 1) % SIZE_MOD) % q.capacity_ },
    ?_, ?_, rfl, hx, rfl, rfl, ?_⟩
  · simp [without_locks.LockFreeCircularBuffer.dequeue, hne, hc, hx]
  · refine ⟨hq.cap_pos, hq.cap_lt, hq.len, Nat.mod_lt _ hq.cap_pos, Nat.lt_of_succ_lt hq.occ_lt, ?_⟩
    show q.tail_ = (((q.head_ + 1) % SIZE_MOD) % q.capacity_ + n) % q.capacity_
    rw [hq.tail_eq, hnext2, Nat.mod_add_mod]
    congr 1
    omega
  · show _ = q.buffer_[q.head_] :: ringItems q.buffer_ q.capacity_
      (((q.head_ + 1) % SIZE_MOD) % q.capacity_) n
    rw [hnext2]
    exact ringItems_pop _ _ _ _ _ hq.head_lt hx

theorem lf_dequeue_empty {α : Type} (q : without_locks.LockFreeCircularBuffer α) (item : α)
    (hq : q.Holds 0) : q.dequeue item = some (false, item, q) := by
  have he := (lf_empty_iff q 0 hq).mpr rfl
  simp [without_locks.LockFreeCircularBuffer.dequeue, he]

theorem lf_construct_holds {α : Type} [Inhabited α] (size : Nat) (h1 : 1 ≤ size)
    (h2 : size < SIZE_MOD) :
    (without_locks.LockFreeCircularBuffer.construct size :
      without_locks.LockFreeCircularBuffer α).Holds 0 := by
  refine ⟨h1, h2, ?_, h1, h1, ?_⟩
  · simp [without_locks.LockFreeCircularBuffer.construct]
  · simp [without_locks.LockFreeCircularBuffer.construct]

/-! ## Histories of the lock-free buffer -/

theorem ringItems_length {α : Type} (buf : List α) (cap head n : Nat) (hc : 0 < cap)
    (hl : buf.length = cap) : (ringItems buf cap head n).length = n := by
  induction n with
  | zero => simp [ringItems]
  | succ n ih =>
    unfold ringItems at ih ⊢
    have hlt : (head + n) % cap < buf.length := by rw [hl]; exact Nat.mod_lt _ hc
    rw [List.range_succ, List.filterMap_append, List.length_append, ih]
    simp [List.getElem?_eq_getElem hlt]

theorem lf_call_valid {α : Type} (h : without_locks.History α) (n : Nat) (hv : h.Valid n)
    (c : without_locks.Call α) :
    ∃ h1 n1, h.call c = some h1 ∧ h1.Valid n1 ∧ h1.queue.capacity_ = h.queue.capacity_ := by
  cases c with
  | enqueue elem =>
    by_cases hn : n + 1 < h.queue.capacity_
    · obtain ⟨q1, he, hq1, hcap, _, hitems⟩ := lf_enqueue_ok h.queue n elem hv.holds hn
      refine ⟨{ queue := q1, enqueued := h.enqueued ++ [elem], dequeued := h.dequeued }, n + 1,
        ?_, ⟨hq1, ?_⟩, hcap⟩
      · simp [without_locks.History.call, he]
      · show h.enqueued ++ [elem] = h.dequeued ++ ringItems q1.buffer_ q1.capacity_ q1.head_ (n + 1)
        rw [hitems, hv.items, List.append_assoc]
    · have hfull : n + 1 = h.queue.capacity_ := by have := hv.holds.occ_lt; omega
      have he := lf_enqueue_full h.queue n elem hv.holds hfull
      refine ⟨h, n, ?_, hv, rfl⟩
      simp [without_locks.History.call, he]
  | dequeue item =>
    cases n with
    | zero =>
      have he := lf_dequeue_empty h.queue item hv.holds
      refine ⟨h, 0, ?_, hv, rfl⟩
      simp [without_locks.History.call, he]
    | succ m =>
      obtain ⟨x, q1, he, hq1, hcap, _, _, _, hitems⟩ := lf_dequeue_ok h.queue m item hv.holds
      refine ⟨{ queue := q1, enqueued := h.enqueued, dequeued := h.dequeued ++ [x] }, m,
        ?_, ⟨hq1, ?_⟩, hcap⟩
      · simp [without_locks.History.call, he]
      · show h.enqueued = (h.dequeued ++ [x]) ++ ringItems q1.buffer_ q1.capacity_ q1.head_ m
        rw [hv.items, hitems, List.append_assoc, List.singleton_append]

theorem lf_run_valid {α : Type} (cs : List (without_locks.Call α)) :
    ∀ (h : without_locks.History α) (n : Nat), h.Valid n →
      ∃ h1 n1, h.run cs = some h1 ∧ h1.Valid n1 ∧ h1.queue.capacity_ = h.queue.capacity_ := by
  induction cs with
  | nil => intro h n hv; exact ⟨h, n, rfl, hv, rfl⟩
  | cons c cs ih =>
    intro h n hv
    obtain ⟨h1, n1, hc, hv1, hcap1⟩ := lf_call_valid h n hv c
    obtain ⟨h2, n2, hr, hv2, hcap2⟩ := ih h1 n1 hv1
    refine ⟨h2, n2, ?_, hv2, hcap2.trans hcap1⟩
    simp [without_locks.History.run, hc, hr]

theorem lf_fresh_valid {α : Type} [Inhabited α] (size : Nat) (h1 : 1 ≤ size)
    (h2 : size < SIZE_MOD) : (without_locks.History.fresh size : without_locks.History α).Valid 0 :=
  ⟨lf_construct_holds size h1 h2, by simp [without_locks.History.fresh, ringItems]⟩

theorem lf_valid_length {α : Type} (h : without_locks.History α) (n : Nat) (hv : h.Valid n) :
    h.enqueued.length = h.dequeued.length + n := by
  rw [hv.items, List.length_append,
    ringItems_length _ _ _ _ hv.holds.cap_pos hv.holds.len]

/-! ## The lock-free demo program -/

theorem firstInts_succ (n : Nat) : firstInts (n + 1) = firstInts n ++ [(n : Int)] := by
  unfold firstInts
  rw [List.range_succ, List.map_append]
  rfl

theorem firstInts_length (n : Nat) : (firstInts n).length = n := by
  unfold firstInts
  rw [List.length_map, List.length_range]

theorem firstInts_mono (a d : Nat) : firstInts a <+: firstInts (a + d) := by
  induction d with
  | zero => exact ⟨[], by simp⟩
  | succ d ih =>
    have e : a + (d + 1) = (a + d) + 1 := by omega
    rw [e, firstInts_succ]
    exact ih.trans ⟨[((a + d : Nat) : Int)], rfl⟩

theorem lf_producer_valid (P : Nat) (s : without_locks.Demo) (n : Nat) (hv : s.Valid P n) :
    ∃ s1 n1, without_locks.producer P s = some s1 ∧ s1.Valid P n1 := by
  by_cases hp : s.produced < P
  · by_cases hn : n + 1 < s.queue.capacity_
    · obtain ⟨q1, he, hq1, _, _, hitems⟩ :=
        lf_enqueue_ok s.queue n (s.produced : Int) hv.holds hn
      refine ⟨{ s with queue := q1, produced := s.produced + 1 }, n + 1, ?_, ⟨hq1, ?_, hp, hv.printed⟩⟩
      · simp [without_locks.producer, hp, he]
      · show firstInts (s.produced + 1) =
          s.output ++ ringItems q1.buffer_ q1.capacity_ q1.head_ (n + 1)
        rw [hitems, firstInts_succ, hv.items, List.append_assoc]
    · have hfull : n + 1 = s.queue.capacity_ := by have := hv.holds.occ_lt; omega
      have he := lf_enqueue_full s.queue n (s.produced : Int) hv.holds hfull
      refine ⟨s, n, ?_, hv⟩
      simp [without_locks.producer, hp, he]
  · exact ⟨s, n, by simp [without_locks.producer, hp], hv⟩

theorem lf_consumer_valid (P C : Nat) (s : without_locks.Demo) (n : Nat) (hv : s.Valid P n) :
    ∃ s1 n1, without_locks.consumer C s = some s1 ∧ s1.Valid P n1 := by
  by_cases hc : s.consumed < C
  · cases n with
    | zero =>
      have he := lf_dequeue_empty s.queue (0 : Int) hv.holds
      refine ⟨s, 0, ?_, hv⟩
      simp [without_locks.consumer, hc, he]
    | succ m =>
      obtain ⟨x, q1, he, hq1, _, _, _, _, hitems⟩ := lf_dequeue_ok s.queue m (0 : Int) hv.holds
      refine ⟨{ s with queue := q1, consumed := s.consumed + 1, output := s.output ++ [x] }, m,
        ?_, ⟨hq1, ?_, hv.bound, ?_⟩⟩
      · simp [without_locks.consumer, hc, he]
      · show firstInts s.produced =
          (s.output ++ [x]) ++ ringItems q1.buffer_ q1.capacity_ q1.head_ m
        rw [hv.items, hitems, List.append_assoc, List.singleton_append]
      · show (s.output ++ [x]).length = s.consumed + 1
        simp [hv.printed]
  · exact ⟨s, n, by simp [without_locks.consumer, hc], hv⟩

theorem lf_demo_run_valid (P C : Nat) (ts : List without_locks.Thread) :
    ∀ (s : without_locks.Demo) (n : Nat), s.Valid P n →
      ∃ s1 n1, without_locks.Demo.run P C s ts = some s1 ∧ s1.Valid P n1 := by
  induction ts with
  | nil => intro s n hv; exact ⟨s, n, rfl, hv⟩
  | cons t ts ih =>
    intro s n hv
    cases t with
    | producer_thread =>
      obtain ⟨s1, n1, hs, hv1⟩ := lf_producer_valid P s n hv
      obtain ⟨s2, n2, hr, hv2⟩ := ih s1 n1 hv1
      exact ⟨s2, n2, by simp [without_locks.Demo.run, hs, hr], hv2⟩
    | consumer_thread =>
      obtain ⟨s1, n1, hs, hv1⟩ := lf_consumer_valid P C s n hv
      obtain ⟨s2, n2, hr, hv2⟩ := ih s1 n1 hv1
      exact ⟨s2, n2, by simp [without_locks.Demo.run, hs, hr], hv2⟩

theorem lf_demo_output (P : Nat) (s : without_locks.Demo) (n : Nat) (hv : s.Valid P n) :
    s.output <+: firstInts P ∧ (s.consumed = P → s.output = firstInts P) := by
  have h1 : s.output <+: firstInts s.produced := ⟨_, hv.items.symm⟩
  have h2 : firstInts s.produced <+: firstInts P := by
    have e : P = s.produced + (P - s.produced) := by have := hv.bound; omega
    rw [e]
    exact firstInts_mono _ _
  have h3 := h1.trans h2
  refine ⟨h3, fun hc => h3.eq_of_length ?_⟩
  rw [hv.printed, hc, firstInts_length]

theorem lf_main_start_valid :
    without_locks.Demo.Valid 10
      { queue := without_locks.LockFreeCircularBuffer.construct 5, produced := 0, consumed := 0,
        output := [] } 0 :=
  ⟨lf_construct_holds 5 (by decide) (by decide), by simp [firstInts, ringItems], by decide, rfl⟩

/-! ## Claims on the lock-free buffer -/

/-- C1. Lock-free variant, FIFO. For every capacity `>= 1` (a `size_t`) and every finite
sequence of `enqueue`/`dequeue` calls on a freshly constructed buffer, every call is defined,
the items delivered by the successful dequeues are a prefix of the arguments of the successful
enqueues, and the two sequences are equal as soon as they have the same length. For `main`
(capacity 5, producer enqueues `0..9` with retry, consumer dequeues 10 times with retry), under
every interleaving of the calls the items consumed are a prefix of `0,1,...,9`, and they are
exactly `0,1,...,9` once the consumer has completed its 10 rounds. -/
theorem lockfree_fifo {α : Type} [Inhabited α] (capacity : Nat)
    (calls : List (without_locks.Call α)) (schedule : List without_locks.Thread)
    (hcap : 1 ≤ capacity) (hfit : capacity < SIZE_MOD) :
    (∃ h, (without_locks.History.fresh capacity).run calls = some h ∧
      h.dequeued <+: h.enqueued ∧
      (h.dequeued.length = h.enqueued.length → h.dequeued = h.enqueued)) ∧
    (∃ s, without_locks.main schedule = some s ∧
      s.output <+: [0, 1, 2, 3, 4, 5, 6, 7, 8, 9] ∧
      (s.consumed = 10 → s.output = [0, 1, 2, 3, 4, 5, 6, 7, 8, 9])) := by
  constructor
  · obtain ⟨h, n, hr, hv, _⟩ := lf_run_valid calls _ 0 (lf_fresh_valid capacity hcap hfit)
    have hp : h.dequeued <+: h.enqueued := ⟨_, hv.items.symm⟩
    exact ⟨h, hr, hp, fun hl => hp.eq_of_length hl⟩
  · obtain ⟨s, n, hr, hv⟩ := lf_demo_run_valid 10 10 schedule _ 0 lf_main_start_valid
    have ho := lf_demo_output 10 s n hv
    have e : firstInts 10 = [0, 1, 2, 3, 4, 5, 6, 7, 8, 9] := by decide
    rw [e] at ho
    exact ⟨s, hr, ho⟩

/-- Witness for C1: capacity 5, a sequence of calls in which two enqueues fail on a full ring and
one dequeue fails on an empty ring, and the schedule of `main` that alternates the two threads;
under that schedule both threads complete and the consumer prints `0,1,...,9`. -/
theorem lockfree_fifo_witness :
    (1 ≤ 5 ∧ 5 < SIZE_MOD) ∧
    ((∃ h, (without_locks.History.fresh 5).run without_locks.exampleCalls = some h ∧
      h.dequeued <+: h.enqueued ∧
      (h.dequeued.length = h.enqueued.length → h.dequeued = h.enqueued)) ∧
    (∃ s, without_locks.main without_locks.alternating = some s ∧
      s.output <+: [0, 1, 2, 3, 4, 5, 6, 7, 8, 9] ∧
      (s.consumed = 10 → s.output = [0, 1, 2, 3, 4, 5, 6, 7, 8, 9]))) ∧
    (without_locks.History.fresh 5).run without_locks.exampleCalls =
      some { queue := { buffer_ := [10, 11, 12, 13, 15], capacity_ := 5, head_ := 2, tail_ := 0 },
             enqueued := [10, 11, 12, 13, 15], dequeued := [10, 11] } ∧
    without_locks.main without_locks.alternating =
      some { queue := { buffer_ := [5, 6, 7, 8, 9], capacity_ := 5, head_ := 0, tail_ := 0 },
             produced := 10, consumed := 10, output := [0, 1, 2, 3, 4, 5, 6, 7, 8, 9] } :=
  ⟨⟨by decide, by decide⟩,
    lockfree_fifo 5 without_locks.exampleCalls without_locks.alternating (by decide) (by decide),
    by decide, by decide⟩

/-- C3. Lock-free variant, a failing call leaves the state unchanged. For every state with
capacity `>= 1`: when the fullness test of `enqueue` holds (`next_tail == head_`, with
`next_tail = (tail + 1) % capacity_` computed on `size_t`), `enqueue(v)` returns `false` and the
whole buffer (`head_`, `tail_`, every slot) is as before; the same when `tail + 1` does not wrap
and `(tail + 1) mod capacity = head` holds on the naturals; and when `head_ == tail_`,
`dequeue(item)` returns `false`, and the buffer and `item` are as before. -/
theorem lockfree_failure_unchanged {α : Type} (q : without_locks.LockFreeCircularBuffer α)
    (v item : α) (hcap : 1 ≤ q.capacity_) :
    (((q.tail_ + 1) % SIZE_MOD) % q.capacity_ = q.head_ → q.enqueue v = some (false, q)) ∧
    (q.tail_ + 1 < SIZE_MOD → (q.tail_ + 1) % q.capacity_ = q.head_ →
      q.enqueue v = some (false, q)) ∧
    (q.head_ = q.tail_ → q.dequeue item = some (false, item, q)) := by
  have hc : q.capacity_ ≠ 0 := by omega
  refine ⟨?_, ?_, ?_⟩
  · intro hfull
    simp [without_locks.LockFreeCircularBuffer.enqueue, hc, hfull]
  · intro hw hfull
    have e : (q.tail_ + 1) % SIZE_MOD = q.tail_ + 1 := Nat.mod_eq_of_lt hw
    simp [without_locks.LockFreeCircularBuffer.enqueue, hc, e, hfull]
  · intro hempty
    simp [without_locks.LockFreeCircularBuffer.dequeue, hempty]

/-- Witness for C3: a full ring of capacity 3 (head 0, tail 2) rejects `enqueue(9)`, and an
empty ring of capacity 3 (head 1, tail 1) rejects `dequeue`; both are left as they were. -/
theorem lockfree_failure_unchanged_witness :
    (without_locks.LockFreeCircularBuffer.enqueue
        ({ buffer_ := [4, 5, 6], capacity_ := 3, head_ := 0, tail_ := 2 } :
          without_locks.LockFreeCircularBuffer Int) 9 =
      some (false, ({ buffer_ := [4, 5, 6], capacity_ := 3, head_ := 0, tail_ := 2 } :
          without_locks.LockFreeCircularBuffer Int))) ∧
    (without_locks.LockFreeCircularBuffer.enqueue
        ({ buffer_ := [4, 5, 6], capacity_ := 3, head_ := 0, tail_ := 2 } :
          without_locks.LockFreeCircularBuffer Int) 9 =
      some (false, ({ buffer_ := [4, 5, 6], capacity_ := 3, head_ := 0, tail_ := 2 } :
          without_locks.LockFreeCircularBuffer Int))) ∧
    (without_locks.LockFreeCircularBuffer.dequeue
        ({ buffer_ := [4, 5, 6], capacity_ := 3, head_ := 1, tail_ := 1 } :
          without_locks.LockFreeCircularBuffer Int) (7 : Int) =
      some (false, 7, ({ buffer_ := [4, 5, 6], capacity_ := 3, head_ := 1, tail_ := 1 } :
          without_locks.LockFreeCircularBuffer Int))) :=
  ⟨(lockfree_failure_unchanged
      ({ buffer_ := [4, 5, 6], capacity_ := 3, head_ := 0, tail_ := 2 } :
          without_locks.LockFreeCircularBuffer Int) 9 7
      (by decide)).1 (by decide),
   (lockfree_failure_unchanged
      ({ buffer_ := [4, 5, 6], capacity_ := 3, head_ := 0, tail_ := 2 } :
          without_locks.LockFreeCircularBuffer Int) 9 7
      (by decide)).2.1 (by decide) (by decide),
   (lockfree_failure_unchanged
      ({ buffer_ := [4, 5, 6], capacity_ := 3, head_ := 1, tail_ := 1 } :
          without_locks.LockFreeCircularBuffer Int) 9 7
      (by decide)).2.2 (by decide)⟩

/-- C4, as stated, fails: on a freshly constructed buffer of capacity 1 the first `enqueue`
returns `false`, because `(0 + 1) % 1 == 0 == head_`. -/
theorem lockfree_capacity_one_first_enqueue_fails :
    (without_locks.LockFreeCircularBuffer.construct 1 :
        without_locks.LockFreeCircularBuffer Int).enqueue 7 =
      some (false, without_locks.LockFreeCircularBuffer.construct 1) ∧
    ¬ ∃ q1, (without_locks.LockFreeCircularBuffer.construct 1 :
        without_locks.LockFreeCircularBuffer Int).enqueue 7 = some (true, q1) := by
  constructor
  · decide
  · rintro ⟨q1, hq1⟩
    have h : (without_locks.LockFreeCircularBuffer.construct 1 :
        without_locks.LockFreeCircularBuffer Int).enqueue 7 =
      some (false, without_locks.LockFreeCircularBuffer.construct 1) := by decide
    rw [h] at hq1
    cases hq1

/-- C4, amended. With capacity 1 the ring has no usable slot: on a freshly constructed buffer
every sequence of calls leaves the buffer as constructed, each `enqueue` and each `dequeue`
returning `false`. The scenario holds with capacity 2 (one usable slot): the first `enqueue(x)`
returns `true`, an immediate second `enqueue(y)` returns `false` and changes nothing, the
subsequent `dequeue` returns `true` and delivers `x`, and a following `enqueue(y)` returns
`true`. -/
theorem lockfree_one_usable_slot_scenario {α : Type} [Inhabited α] (x y item : α)
    (calls : List (without_locks.Call α)) :
    (without_locks.History.fresh 1).run calls = some (without_locks.History.fresh 1) ∧
    (without_locks.LockFreeCircularBuffer.construct 1).enqueue x =
      some (false, without_locks.LockFreeCircularBuffer.construct 1) ∧
    (without_locks.LockFreeCircularBuffer.construct 1).dequeue item =
      some (false, item, without_locks.LockFreeCircularBuffer.construct 1) ∧
    ∃ q1 q2 q3,
      (without_locks.LockFreeCircularBuffer.construct 2).enqueue x = some (true, q1) ∧
      q1.enqueue y = some (false, q1) ∧
      q1.dequeue item = some (true, x, q2) ∧
      q2.enqueue y = some (true, q3) := by
  have he : ∀ v : α, (without_locks.LockFreeCircularBuffer.construct 1).enqueue v =
      some (false, without_locks.LockFreeCircularBuffer.construct 1) := by
    intro v
    simp [without_locks.LockFreeCircularBuffer.enqueue,
      without_locks.LockFreeCircularBuffer.construct, SIZE_MOD]
  have hd : ∀ v : α, (without_locks.LockFreeCircularBuffer.construct 1).dequeue v =
      some (false, v, without_locks.LockFreeCircularBuffer.construct 1) := by
    intro v
    simp [without_locks.LockFreeCircularBuffer.dequeue,
      without_locks.LockFreeCircularBuffer.construct]
  refine ⟨?_, he x, hd item, ?_⟩
  · induction calls with
    | nil => rfl
    | cons c cs ih =>
      cases c with
      | enqueue elem =>
        simp [without_locks.History.run, without_locks.History.call,
          without_locks.History.fresh, he elem]
        exact ih
      | dequeue it =>
        simp [without_locks.History.run, without_locks.History.call,
          without_locks.History.fresh, hd it]
        exact ih
  · refine ⟨{ buffer_ := [x, default], capacity_ := 2, head_ := 0, tail_ := 1 },
      { buffer_ := [x, default], capacity_ := 2, head_ := 1, tail_ := 1 },
      { buffer_ := [x, y], capacity_ := 2, head_ := 1, tail_ := 0 }, ?_, ?_, ?_, ?_⟩
    · simp [without_locks.LockFreeCircularBuffer.enqueue,
        without_locks.LockFreeCircularBuffer.construct, SIZE_MOD]
    · simp [without_locks.LockFreeCircularBuffer.enqueue, SIZE_MOD]
    · simp [without_locks.LockFreeCircularBuffer.dequeue, SIZE_MOD]
    · simp [without_locks.LockFreeCircularBuffer.enqueue, SIZE_MOD]

/-- C5. Lock-free variant, bounded occupancy. For every capacity `>= 1` (a `size_t`), every
finite sequence of calls on a freshly constructed buffer and every point `k` of that sequence,
the calls made so far are all defined, and the effective occupancy (successful enqueues minus
successful dequeues) is not negative, equals `(tail + capacity - head) mod capacity`, and is at
most `capacity - 1`. -/
theorem lockfree_bounded_occupancy {α : Type} [Inhabited α] (capacity : Nat)
    (calls : List (without_locks.Call α)) (k : Nat)
    (hcap : 1 ≤ capacity) (hfit : capacity < SIZE_MOD) :
    ∃ h, (without_locks.History.fresh capacity).run (calls.take k) = some h ∧
      h.queue.capacity_ = capacity ∧
      0 ≤ h.occupancy ∧
      h.occupancy = (((h.queue.tail_ + capacity - h.queue.head_) % capacity : Nat) : Int) ∧
      h.occupancy ≤ (capacity : Int) - 1 := by
  obtain ⟨h, n, hr, hv, hc⟩ := lf_run_valid (calls.take k) _ 0 (lf_fresh_valid capacity hcap hfit)
  have hc1 : h.queue.capacity_ = capacity := hc
  have hlen := lf_valid_length h n hv
  have hocc := lf_occupancy_eq h.queue n hv.holds
  have hlt := hv.holds.occ_lt
  rw [hc1] at hocc hlt
  refine ⟨h, hr, hc1, ?_, ?_, ?_⟩
  · unfold without_locks.History.occupancy; omega
  · rw [hocc]; unfold without_locks.History.occupancy; omega
  · unfold without_locks.History.occupancy; omega

/-- Witness for C5: capacity 3 and six calls, inspected after the first five (three enqueues, of
which the third fails on the full ring, then a dequeue and an enqueue): occupancy 2. -/
theorem lockfree_bounded_occupancy_witness :
    (1 ≤ 3 ∧ 3 < SIZE_MOD) ∧
    (∃ h, (without_locks.History.fresh 3).run
        (List.take 5 [without_locks.Call.enqueue (1 : Int), without_locks.Call.enqueue 2,
          without_locks.Call.enqueue 3, without_locks.Call.dequeue 0,
          without_locks.Call.enqueue 4, without_locks.Call.dequeue 0]) = some h ∧
      h.queue.capacity_ = 3 ∧
      0 ≤ h.occupancy ∧
      h.occupancy = (((h.queue.tail_ + 3 - h.queue.head_) % 3 : Nat) : Int) ∧
      h.occupancy ≤ ((3 : Nat) : Int) - 1) ∧
    (without_locks.History.fresh 3).run
        (List.take 5 [without_locks.Call.enqueue (1 : Int), without_locks.Call.enqueue 2,
          without_locks.Call.enqueue 3, without_locks.Call.dequeue 0,
          without_locks.Call.enqueue 4, without_locks.Call.dequeue 0]) =
      some { queue := { buffer_ := [1, 2, 4], capacity_ := 3, head_ := 1, tail_ := 0 },
             enqueued := [1, 2, 4], dequeued := [1] } :=
  ⟨⟨by decide, by decide⟩, lockfree_bounded_occupancy 3 _ 5 (by decide) (by decide), by decide⟩

/-! ## The blocking calls on a well-formed buffer -/

theorem bl_enqueue_ok {α : Type} (q : with_locks.CircularBuffer α) (v : α)
    (hq : q.WellFormed) (hs : q.size_ < q.capacity_) :
    ∃ q1, q.enqueue v = with_locks.Outcome.done q1 with_locks.CondVar.cond_not_empty_ ∧
      q1.WellFormed ∧ q1.capacity_ = q.capacity_ ∧ q1.head_ = q.head_ ∧
      q1.size_ = q.size_ + 1 ∧
      ringItems q1.buffer_ q1.capacity_ q1.head_ q1.size_ =
        ringItems q.buffer_ q.capacity_ q.head_ q.size_ ++ [v] := by
  have htl : q.tail_ < q.buffer_.length := by
    rw [hq.len, hq.tail_eq]; exact Nat.mod_lt _ hq.cap_pos
  have hlt := hq.cap_lt
  have hsz : (q.size_ + 1) % SIZE_MOD = q.size_ + 1 := Nat.mod_eq_of_lt (by omega)
  have htm : (q.tail_ + 1) % SIZE_MOD = q.tail_ + 1 :=
    Nat.mod_eq_of_lt (by rw [hq.len] at htl; omega)
  refine ⟨{ q with buffer_ := q.buffer_.set q.tail_ v,
                   tail_ := ((q.tail_ + 1) % SIZE_MOD) % q.capacity_,
                   size_ := (q.size_ + 1) % SIZE_MOD }, ?_, ?_, rfl, rfl, hsz, ?_⟩
  · simp [with_locks.CircularBuffer.enqueue, hs, htl]
  · refine ⟨hq.cap_pos, hq.cap_lt, ?_, hq.head_lt, ?_, ?_⟩
    · simp [hq.len]
    · show (q.size_ + 1) % SIZE_MOD ≤ q.capacity_
      rw [hsz]; omega
    · show ((q.tail_ + 1) % SIZE_MOD) % q.capacity_ =
        (q.head_ + (q.size_ + 1) % SIZE_MOD) % q.capacity_
      rw [hsz, htm, hq.tail_eq, Nat.mod_add_mod, Nat.add_assoc]
  · show ringItems (q.buffer_.set q.tail_ v) q.capacity_ q.head_ ((q.size_ + 1) % SIZE_MOD) = _
    rw [hsz, hq.tail_eq]
    exact ringItems_push _ _ _ _ _ hq.head_lt hs hq.len

theorem bl_enqueue_blocked {α : Type} (q : with_locks.CircularBuffer α) (v : α)
    (hs : ¬ q.size_ < q.capacity_) :
    q.enqueue v = with_locks.Outcome.blocked with_locks.CondVar.cond_not_full_ := by
  simp [with_locks.CircularBuffer.enqueue, hs]

theorem bl_dequeue_ok {α : Type} (q : with_locks.CircularBuffer α)
    (hq : q.WellFormed) (hs : 0 < q.size_) :
    ∃ x q1, q.dequeue = with_locks.Outcome.done (some x, q1) with_locks.CondVar.cond_not_empty_ ∧
      q1.WellFormed ∧ q1.capacity_ = q.capacity_ ∧ q1.size_ + 1 = q.size_ ∧
      q.buffer_[q.head_]? = some x ∧
      ringItems q.buffer_ q.capacity_ q.head_ q.size_ =
        x :: ringItems q1.buffer_ q1.capacity_ q1.head_ q1.size_ := by
  have hc : q.capacity_ ≠ 0 := Nat.pos_iff_ne_zero.mp hq.cap_pos
  have hhl : q.head_ < q.buffer_.length := by rw [hq.len]; exact hq.head_lt
  have hx : q.buffer_[q.head_]? = some (q.buffer_[q.head_]) := List.getElem?_eq_getElem hhl
  have hlt := hq.cap_lt
  have hle := hq.size_le
  have hhd := hq.head_lt
  have hsz : (q.size_ + SIZE_MOD - 1) % SIZE_MOD = q.size_ - 1 := by
    have e : q.size_ + SIZE_MOD - 1 = (q.size_ - 1) + SIZE_MOD := by omega
    rw [e, Nat.add_mod_right]
    exact Nat.mod_eq_of_lt (by omega)
  have hhm : (q.head_ + 1) % SIZE_MOD = q.head_ + 1 := Nat.mod_eq_of_lt (by omega)
  refine ⟨q.buffer_[q.head_], { q with head_ := ((q.head_ + 1) % SIZE_MOD) % q.capacity_,
                                       size_ := (q.size_ + SIZE_MOD - 1) % SIZE_MOD },
    ?_, ?_, rfl, ?_, hx, ?_⟩
  · simp [with_locks.CircularBuffer.dequeue, hs, hc, hx]
  · refine ⟨hq.cap_pos, hq.cap_lt, hq.len, Nat.mod_lt _ hq.cap_pos, ?_, ?_⟩
    · show (q.size_ + SIZE_MOD - 1) % SIZE_MOD ≤ q.capacity_
      rw [hsz]; omega
    · show q.tail_ = (((q.head_ + 1) % SIZE_MOD) % q.capacity_ +
        (q.size_ + SIZE_MOD - 1) % SIZE_MOD) % q.capacity_
      have e : q.head_ + 1 + (q.size_ - 1) = q.head_ + q.size_ := by omega
      rw [hsz, hhm, hq.tail_eq, Nat.mod_add_mod, e]
  · show (q.size_ + SIZE_MOD - 1) % SIZE_MOD + 1 = q.size_
    rw [hsz]; omega
  · show _ = q.buffer_[q.head_] :: ringItems q.buffer_ q.capacity_
      (((q.head_ + 1) % SIZE_MOD) % q.capacity_) ((q.size_ + SIZE_MOD - 1) % SIZE_MOD)
    rw [hsz, hhm]
    have e : q.size_ = (q.size_ - 1) + 1 := by omega
    conv_lhs => rw [e]
    exact ringItems_pop _ _ _ _ _ hq.head_lt hx

theorem bl_dequeue_blocked {α : Type} (q : with_locks.CircularBuffer α) (hs : ¬ 0 < q.size_) :
    q.dequeue = with_locks.Outcome.blocked with_locks.CondVar.cond_not_empty_ := by
  simp [with_locks.CircularBuffer.dequeue, hs]

theorem bl_construct_wf {α : Type} [Inhabited α] (size : Nat) (h1 : 1 ≤ size)
    (h2 : size < SIZE_MOD) :
    (with_locks.CircularBuffer.construct size : with_locks.CircularBuffer α).WellFormed := by
  refine ⟨h1, h2, ?_, h1, Nat.zero_le _, ?_⟩
  · simp [with_locks.CircularBuffer.construct]
  · simp [with_locks.CircularBuffer.construct]

/-! ## Histories of the blocking buffer -/

theorem bl_valid_length {α : Type} (h : with_locks.History α) (hv : h.Valid) :
    h.enqueued.length = h.dequeued.length + h.queue.size_ := by
  rw [hv.items, List.length_append, ringItems_length _ _ _ _ hv.wf.cap_pos hv.wf.len]

theorem bl_call_enqueue {α : Type} (h : with_locks.History α) (v : α) (hv : h.Valid)
    (hs : h.queue.size_ < h.queue.capacity_) :
    ∃ h1, h.call (with_locks.Call.enqueue v) = some h1 ∧ h1.Valid ∧
      h1.queue.capacity_ = h.queue.capacity_ ∧ h1.queue.size_ = h.queue.size_ + 1 ∧
      h1.enqueued = h.enqueued ++ [v] ∧ h1.dequeued = h.dequeued := by
  obtain ⟨q1, he, hq1, hcap, _, hsz, hitems⟩ := bl_enqueue_ok h.queue v hv.wf hs
  refine ⟨{ queue := q1, enqueued := h.enqueued ++ [v], dequeued := h.dequeued },
    ?_, ⟨hq1, ?_⟩, hcap, hsz, rfl, rfl⟩
  · simp [with_locks.History.call, he]
  · show h.enqueued ++ [v] = h.dequeued ++ ringItems q1.buffer_ q1.capacity_ q1.head_ q1.size_
    rw [hitems, hv.items, List.append_assoc]

theorem bl_call_dequeue {α : Type} (h : with_locks.History α) (hv : h.Valid)
    (hs : 0 < h.queue.size_) :
    ∃ x h1, h.call with_locks.Call.dequeue = some h1 ∧ h1.Valid ∧
      h1.queue.capacity_ = h.queue.capacity_ ∧ h1.queue.size_ + 1 = h.queue.size_ ∧
      h1.enqueued = h.enqueued ∧ h1.dequeued = h.dequeued ++ [x] := by
  obtain ⟨x, q1, he, hq1, hcap, hsz, _, hitems⟩ := bl_dequeue_ok h.queue hv.wf hs
  refine ⟨x, { queue := q1, enqueued := h.enqueued, dequeued := h.dequeued ++ [x] },
    ?_, ⟨hq1, ?_⟩, hcap, hsz, rfl, rfl⟩
  · simp [with_locks.History.call, he]
  · show h.enqueued = (h.dequeued ++ [x]) ++ ringItems q1.buffer_ q1.capacity_ q1.head_ q1.size_
    rw [hv.items, hitems, List.append_assoc, List.singleton_append]

theorem bl_run_admissible {α : Type} (cs : List (with_locks.Call α)) :
    ∀ h : with_locks.History α, h.Valid →
      with_locks.admissible h.queue.capacity_ h.queue.size_ cs = true →
      ∃ h1, h.run cs = some h1 ∧ h1.Valid ∧ h1.queue.capacity_ = h.queue.capacity_ ∧
        h1.enqueued = h.enqueued ++ with_locks.enqueueArgs cs ∧
        h1.dequeued.length = h.dequeued.length + with_locks.dequeueCount cs := by
  induction cs with
  | nil =>
    intro h hv _
    exact ⟨h, rfl, hv, rfl, by simp [with_locks.enqueueArgs], by simp [with_locks.dequeueCount]⟩
  | cons c cs ih =>
    intro h hv ha
    cases c with
    | enqueue v =>
      simp only [with_locks.admissible, Bool.and_eq_true, decide_eq_true_eq] at ha
      obtain ⟨h1, hc, hv1, hcap, hsz, hen, hde⟩ := bl_call_enqueue h v hv ha.1
      have ha2 := ha.2
      rw [← hcap, ← hsz] at ha2
      obtain ⟨h2, hr, hv2, hcap2, hen2, hde2⟩ := ih h1 hv1 ha2
      refine ⟨h2, ?_, hv2, hcap2.trans hcap, ?_, ?_⟩
      · simp [with_locks.History.run, hc, hr]
      · rw [hen2, hen]; simp [with_locks.enqueueArgs]
      · rw [hde2, hde]; simp [with_locks.dequeueCount]
    | dequeue =>
      simp only [with_locks.admissible, Bool.and_eq_true, decide_eq_true_eq] at ha
      obtain ⟨x, h1, hc, hv1, hcap, hsz, hen, hde⟩ := bl_call_dequeue h hv ha.1
      have ha2 := ha.2
      have e : h.queue.size_ - 1 = h1.queue.size_ := by omega
      rw [← hcap, e] at ha2
      obtain ⟨h2, hr, hv2, hcap2, hen2, hde2⟩ := ih h1 hv1 ha2
      refine ⟨h2, ?_, hv2, hcap2.trans hcap, ?_, ?_⟩
      · simp [with_locks.History.run, hc, hr]
      · rw [hen2, hen]; simp [with_locks.enqueueArgs]
      · rw [hde2, hde]; simp [with_locks.dequeueCount]; omega

theorem bl_run_some {α : Type} (cs : List (with_locks.Call α)) :
    ∀ h h2 : with_locks.History α, h.Valid → h.run cs = some h2 →
      with_locks.admissible h.queue.capacity_ h.queue.size_ cs = true := by
  induction cs with
  | nil => intro h h2 _ _; rfl
  | cons c cs ih =>
    intro h h2 hv hr
    cases c with
    | enqueue v =>
      by_cases hs : h.queue.size_ < h.queue.capacity_
      · obtain ⟨h1, hc, hv1, hcap, hsz, _, _⟩ := bl_call_enqueue h v hv hs
        simp only [with_locks.History.run, hc] at hr
        have := ih h1 h2 hv1 hr
        rw [hcap, hsz] at this
        simp [with_locks.admissible, hs, this]
      · have hb := bl_enqueue_blocked h.queue v hs
        simp [with_locks.History.run, with_locks.History.call, hb] at hr
    | dequeue =>
      by_cases hs : 0 < h.queue.size_
      · obtain ⟨x, h1, hc, hv1, hcap, hsz, _, _⟩ := bl_call_dequeue h hv hs
        simp only [with_locks.History.run, hc] at hr
        have := ih h1 h2 hv1 hr
        have e : h1.queue.size_ = h.queue.size_ - 1 := by omega
        rw [hcap, e] at this
        simp [with_locks.admissible, hs, this]
      · have hb := bl_dequeue_blocked h.queue hs
        simp [with_locks.History.run, with_locks.History.call, hb] at hr

theorem bl_fresh_valid {α : Type} [Inhabited α] (size : Nat) (h1 : 1 ≤ size)
    (h2 : size < SIZE_MOD) : (with_locks.History.fresh size : with_locks.History α).Valid :=
  ⟨bl_construct_wf size h1 h2,
    by simp [with_locks.History.fresh, with_locks.CircularBuffer.construct, ringItems]⟩

theorem bl_admissible_enqueues {α : Type} (cap : Nat) (vs : List α) :
    ∀ s : Nat, s + vs.length ≤ cap →
      with_locks.admissible cap s (vs.map with_locks.Call.enqueue) = true := by
  induction vs with
  | nil => intro s _; rfl
  | cons v vs ih =>
    intro s hs
    simp only [List.length_cons] at hs
    simp only [List.map_cons, with_locks.admissible, Bool.and_eq_true, decide_eq_true_eq]
    exact ⟨by omega, ih (s + 1) (by omega)⟩

theorem bl_admissible_dequeues {α : Type} (cap k : Nat) :
    ∀ s : Nat, k ≤ s →
      with_locks.admissible cap s (List.replicate k (with_locks.Call.dequeue : with_locks.Call α))
        = true := by
  induction k with
  | zero => intro s _; rfl
  | succ k ih =>
    intro s hs
    simp only [List.replicate_succ, with_locks.admissible, Bool.and_eq_true, decide_eq_true_eq]
    exact ⟨by omega, ih (s - 1) (by omega)⟩

theorem bl_enqueueArgs_enqueues {α : Type} (vs : List α) :
    with_locks.enqueueArgs (vs.map with_locks.Call.enqueue) = vs ∧
    with_locks.dequeueCount (vs.map with_locks.Call.enqueue) = 0 := by
  induction vs with
  | nil => exact ⟨rfl, rfl⟩
  | cons v vs ih => simp [with_locks.enqueueArgs, with_locks.dequeueCount, ih.1, ih.2]

theorem bl_enqueueArgs_dequeues {α : Type} (k : Nat) :
    with_locks.enqueueArgs (List.replicate k (with_locks.Call.dequeue : with_locks.Call α)) = [] ∧
    with_locks.dequeueCount (List.replicate k (with_locks.Call.dequeue : with_locks.Call α)) = k := by
  induction k with
  | zero => exact ⟨rfl, rfl⟩
  | succ k ih => simp [List.replicate_succ, with_locks.enqueueArgs, with_locks.dequeueCount, ih.1, ih.2]

/-! ## The blocking demo program -/

theorem bl_notify_valid (P : Nat) (cv : with_locks.CondVar) (s : with_locks.Demo)
    (hv : s.Valid P) : (with_locks.notify_one cv s).Valid P := by
  unfold with_locks.notify_one
  split_ifs
  · exact ⟨hv.wf, hv.items, hv.bound, hv.printed⟩
  · exact ⟨hv.wf, hv.items, hv.bound, hv.printed⟩
  · exact hv

theorem bl_producer_valid (P : Nat) (s : with_locks.Demo) (hv : s.Valid P) :
    ∃ s1, with_locks.producer P s = some s1 ∧ s1.Valid P := by
  by_cases hp : s.produced < P ∧ s.producer_status = with_locks.Status.ready
  · by_cases hs : s.queue.size_ < s.queue.capacity_
    · obtain ⟨q1, he, hq1, _, _, _, hitems⟩ := bl_enqueue_ok s.queue (s.produced : Int) hv.wf hs
      refine ⟨with_locks.notify_one with_locks.CondVar.cond_not_empty_
        { s with queue := q1, produced := s.produced + 1 }, ?_, ?_⟩
      · simp [with_locks.producer, hp, he]
      · apply bl_notify_valid
        refine ⟨hq1, ?_, hp.1, hv.printed⟩
        show firstInts (s.produced + 1) =
          s.output ++ ringItems q1.buffer_ q1.capacity_ q1.head_ q1.size_
        rw [hitems, firstInts_succ, hv.items, List.append_assoc]
    · have hb := bl_enqueue_blocked s.queue (s.produced : Int) hs
      refine ⟨{ s with producer_status :=
        with_locks.Status.waiting with_locks.CondVar.cond_not_full_ }, ?_, ?_⟩
      · simp [with_locks.producer, hp, hb]
      · exact ⟨hv.wf, hv.items, hv.bound, hv.printed⟩
  · exact ⟨s, by simp only [with_locks.producer, hp, if_false], hv⟩

theorem bl_consumer_valid (P C : Nat) (s : with_locks.Demo) (hv : s.Valid P) :
    ∃ s1, with_locks.consumer C s = some s1 ∧ s1.Valid P := by
  by_cases hc : s.consumed < C ∧ s.consumer_status = with_locks.Status.ready
  · by_cases hs : 0 < s.queue.size_
    · obtain ⟨x, q1, he, hq1, _, _, _, hitems⟩ := bl_dequeue_ok s.queue hv.wf hs
      refine ⟨with_locks.notify_one with_locks.CondVar.cond_not_empty_
        { s with queue := q1, consumed := s.consumed + 1, output := s.output ++ [x] }, ?_, ?_⟩
      · simp [with_locks.consumer, hc, he]
      · apply bl_notify_valid
        refine ⟨hq1, ?_, hv.bound, ?_⟩
        · show firstInts s.produced =
            (s.output ++ [x]) ++ ringItems q1.buffer_ q1.capacity_ q1.head_ q1.size_
          rw [hv.items, hitems, List.append_assoc, List.singleton_append]
        · show (s.output ++ [x]).length = s.consumed + 1
          simp [hv.printed]
    · have hb := bl_dequeue_blocked s.queue hs
      refine ⟨{ s with consumer_status :=
        with_locks.Status.waiting with_locks.CondVar.cond_not_empty_ }, ?_, ?_⟩
      · simp [with_locks.consumer, hc, hb]
      · exact ⟨hv.wf, hv.items, hv.bound, hv.printed⟩
  · exact ⟨s, by simp only [with_locks.consumer, hc, if_false], hv⟩

theorem bl_demo_run_valid (P C : Nat) (ts : List with_locks.Thread) :
    ∀ s : with_locks.Demo, s.Valid P →
      ∃ s1, with_locks.Demo.run P C s ts = some s1 ∧ s1.Valid P := by
  induction ts with
  | nil => intro s hv; exact ⟨s, rfl, hv⟩
  | cons t ts ih =>
    intro s hv
    cases t with
    | producer_thread =>
      obtain ⟨s1, hs, hv1⟩ := bl_producer_valid P s hv
      obtain ⟨s2, hr, hv2⟩ := ih s1 hv1
      exact ⟨s2, by simp [with_locks.Demo.run, hs, hr], hv2⟩
    | consumer_thread =>
      obtain ⟨s1, hs, hv1⟩ := bl_consumer_valid P C s hv
      obtain ⟨s2, hr, hv2⟩ := ih s1 hv1
      exact ⟨s2, by simp [with_locks.Demo.run, hs, hr], hv2⟩

theorem bl_demo_output (P : Nat) (s : with_locks.Demo) (hv : s.Valid P) :
    s.output <+: firstInts P ∧ (s.consumed = P → s.output = firstInts P) := by
  have h1 : s.output <+: firstInts s.produced := ⟨_, hv.items.symm⟩
  have h2 : firstInts s.produced <+: firstInts P := by
    have e : P = s.produced + (P - s.produced) := by have := hv.bound; omega
    rw [e]
    exact firstInts_mono _ _
  have h3 := h1.trans h2
  refine ⟨h3, fun hc => h3.eq_of_length ?_⟩
  rw [hv.printed, hc, firstInts_length]

theorem bl_start_valid (P cap : Nat) (h1 : 1 ≤ cap) (h2 : cap < SIZE_MOD) :
    (with_locks.Demo.start cap).Valid P :=
  ⟨bl_construct_wf cap h1 h2,
    by simp [with_locks.Demo.start, with_locks.CircularBuffer.construct, firstInts, ringItems],
    Nat.zero_le _, rfl⟩

/-! ## Claims on the blocking buffer -/

/-- C2. Blocking variant, FIFO. For every capacity `>= 1` (a `size_t`) and every finite sequence
of `enqueue`/`dequeue` calls on a freshly constructed buffer in which each call is made only
when it can complete (`enqueue` when `size < capacity`, `dequeue` when `size > 0`): every call
completes, the values returned by the dequeues are a prefix of the values enqueued, and when as
many dequeues as enqueues have completed they are exactly the values enqueued, in order.
Conversely a sequence whose calls all complete is of that kind. For `main` (capacity 5,
enqueues of `0..9`, 10 dequeues), under every schedule of the two threads the items consumed are
a prefix of `0,1,...,9`, and are exactly `0,1,...,9` once the consumer has done its 10 rounds. -/
theorem blocking_fifo {α : Type} [Inhabited α] (capacity : Nat)
    (calls : List (with_locks.Call α)) (schedule : List with_locks.Thread)
    (hcap : 1 ≤ capacity) (hfit : capacity < SIZE_MOD) :
    (with_locks.admissible capacity 0 calls = true →
      ∃ h, (with_locks.History.fresh capacity).run calls = some h ∧
        h.enqueued = with_locks.enqueueArgs calls ∧
        h.dequeued.length = with_locks.dequeueCount calls ∧
        h.dequeued <+: h.enqueued ∧
        (with_locks.dequeueCount calls = (with_locks.enqueueArgs calls).length →
          h.dequeued = with_locks.enqueueArgs calls)) ∧
    (∀ h, (with_locks.History.fresh capacity).run calls = some h →
      with_locks.admissible capacity 0 calls = true) ∧
    (∃ s, with_locks.main schedule = some s ∧
      s.output <+: [0, 1, 2, 3, 4, 5, 6, 7, 8, 9] ∧
      (s.consumed = 10 → s.output = [0, 1, 2, 3, 4, 5, 6, 7, 8, 9])) := by
  have hfresh : (with_locks.History.fresh capacity : with_locks.History α).Valid :=
    bl_fresh_valid capacity hcap hfit
  refine ⟨?_, ?_, ?_⟩
  · intro ha
    obtain ⟨h, hr, hv, _, hen, hde⟩ := bl_run_admissible calls _ hfresh ha
    have hen1 : h.enqueued = with_locks.enqueueArgs calls := by
      rw [hen]; simp [with_locks.History.fresh]
    have hde1 : h.dequeued.length = with_locks.dequeueCount calls := by
      rw [hde]; simp [with_locks.History.fresh]
    have hp : h.dequeued <+: h.enqueued := ⟨_, hv.items.symm⟩
    refine ⟨h, hr, hen1, hde1, hp, fun hl => ?_⟩
    rw [← hen1]
    exact hp.eq_of_length (by rw [hde1, hl, hen1])
  · intro h hr
    exact bl_run_some calls _ h hfresh hr
  · obtain ⟨s, hr, hv⟩ :=
      bl_demo_run_valid 10 10 schedule _ (bl_start_valid 10 5 (by decide) (by decide))
    have ho := bl_demo_output 10 s hv
    have e : firstInts 10 = [0, 1, 2, 3, 4, 5, 6, 7, 8, 9] := by decide
    rw [e] at ho
    exact ⟨s, hr, ho⟩

/-- Witness for C2: capacity 5, the enqueues of `0..9` interleaved with ten dequeues, and the
schedule of `main` that alternates the two threads: the values dequeued are `0,1,...,9`. -/
theorem blocking_fifo_witness :
    (1 ≤ 5 ∧ 5 < SIZE_MOD ∧ with_locks.admissible 5 0 with_locks.exampleCalls = true) ∧
    (∃ h, (with_locks.History.fresh 5).run with_locks.exampleCalls = some h ∧
      h.enqueued = with_locks.enqueueArgs with_locks.exampleCalls ∧
      h.dequeued.length = with_locks.dequeueCount with_locks.exampleCalls ∧
      h.dequeued <+: h.enqueued ∧
      (with_locks.dequeueCount with_locks.exampleCalls =
          (with_locks.enqueueArgs with_locks.exampleCalls).length →
        h.dequeued = with_locks.enqueueArgs with_locks.exampleCalls)) ∧
    (with_locks.History.fresh 5).run with_locks.exampleCalls =
      some { queue := { buffer_ := [5, 6, 7, 8, 9], capacity_ := 5, head_ := 0, tail_ := 0,
                        size_ := 0 },
             enqueued := [0, 1, 2, 3, 4, 5, 6, 7, 8, 9],
             dequeued := [0, 1, 2, 3, 4, 5, 6, 7, 8, 9] } ∧
    (with_locks.main with_locks.alternating).map (fun s => (s.produced, s.consumed, s.output)) =
      some (10, 10, [0, 1, 2, 3, 4, 5, 6, 7, 8, 9]) :=
  ⟨⟨by decide, by decide, by decide⟩,
    (blocking_fifo 5 with_locks.exampleCalls with_locks.alternating (by decide) (by decide)).1
      (by decide),
    by decide, by decide⟩

/-- C6. Blocking variant, bounded occupancy. For every capacity `>= 1` (a `size_t`), in every
state reached from a freshly constructed buffer by completed `enqueue` and `dequeue` calls,
`0 <= size_ <= capacity_`, `size_` is the number of completed enqueues minus the number of
completed dequeues, and a `dequeue` completing in that state leaves `size_ - 1` without
wrapping (as an `enqueue` leaves `size_ + 1`). -/
theorem blocking_bounded_occupancy {α : Type} [Inhabited α] (capacity : Nat)
    (calls : List (with_locks.Call α)) (h : with_locks.History α)
    (hcap : 1 ≤ capacity) (hfit : capacity < SIZE_MOD)
    (hrun : (with_locks.History.fresh capacity).run calls = some h) :
    h.queue.capacity_ = capacity ∧
    0 ≤ h.queue.size_ ∧ h.queue.size_ ≤ capacity ∧
    h.enqueued.length = (with_locks.enqueueArgs calls).length ∧
    h.dequeued.length = with_locks.dequeueCount calls ∧
    (h.queue.size_ : Int) = (h.enqueued.length : Int) - (h.dequeued.length : Int) ∧
    (∀ r cv, h.queue.dequeue = with_locks.Outcome.done r cv → r.2.size_ + 1 = h.queue.size_) ∧
    (∀ v q1 cv, h.queue.enqueue v = with_locks.Outcome.done q1 cv →
      q1.size_ = h.queue.size_ + 1) := by
  have hfresh : (with_locks.History.fresh capacity : with_locks.History α).Valid :=
    bl_fresh_valid capacity hcap hfit
  have ha := bl_run_some calls _ h hfresh hrun
  obtain ⟨h1, hr, hv, hc, hen, hde⟩ := bl_run_admissible calls _ hfresh ha
  rw [hrun] at hr
  cases hr
  have hlen := bl_valid_length h hv
  have hle := hv.wf.size_le
  have hc1 : h.queue.capacity_ = capacity := hc
  rw [hc1] at hle
  refine ⟨hc1, Nat.zero_le _, hle, ?_, ?_, ?_, ?_, ?_⟩
  · rw [hen]; simp [with_locks.History.fresh]
  · rw [hde]; simp [with_locks.History.fresh]
  · omega
  · intro r cv hd
    by_cases hs : 0 < h.queue.size_
    · obtain ⟨x, q1, he, _, _, hsz, _, _⟩ := bl_dequeue_ok h.queue hv.wf hs
      rw [he] at hd
      cases hd
      exact hsz
    · rw [bl_dequeue_blocked h.queue hs] at hd
      cases hd
  · intro v q1 cv hd
    by_cases hs : h.queue.size_ < h.queue.capacity_
    · obtain ⟨q2, he, _, _, _, hsz, _⟩ := bl_enqueue_ok h.queue v hv.wf hs
      rw [he] at hd
      cases hd
      exact hsz
    · rw [bl_enqueue_blocked h.queue v hs] at hd
      cases hd

/-- Witness for C6: capacity 5 and the first eight calls of the example sequence (five enqueues
and three dequeues): `size_ = 2`. -/
theorem blocking_bounded_occupancy_witness :
    (1 ≤ 5 ∧ 5 < SIZE_MOD ∧
      (with_locks.History.fresh 5).run (with_locks.exampleCalls.take 8) =
        some { queue := { buffer_ := [0, 1, 2, 3, 4], capacity_ := 5, head_ := 3, tail_ := 0,
                          size_ := 2 },
               enqueued := [0, 1, 2, 3, 4], dequeued := [0, 1, 2] }) ∧
    (2 : Nat) ≤ 5 ∧ ((2 : Nat) : Int) = ((5 : Nat) : Int) - ((3 : Nat) : Int) :=
  ⟨⟨by decide, by decide, by decide⟩,
    (blocking_bounded_occupancy 5 (with_locks.exampleCalls.take 8)
      { queue := { buffer_ := [0, 1, 2, 3, 4], capacity_ := 5, head_ := 3, tail_ := 0,
                   size_ := 2 },
        enqueued := [0, 1, 2, 3, 4], dequeued := [0, 1, 2] }
      (by decide) (by decide) (by decide)).2.2.1,
    (blocking_bounded_occupancy 5 (with_locks.exampleCalls.take 8)
      { queue := { buffer_ := [0, 1, 2, 3, 4], capacity_ := 5, head_ := 3, tail_ := 0,
                   size_ := 2 },
        enqueued := [0, 1, 2, 3, 4], dequeued := [0, 1, 2] }
      (by decide) (by decide) (by decide)).2.2.2.2.2.1⟩

/-- C8. The blocking variant uses its full capacity. For every capacity `N >= 1` (a `size_t`)
and values `v1..vN`: starting from a freshly constructed buffer the `N` consecutive calls
`enqueue(v1)`, ..., `enqueue(vN)` all complete; then `size_ == N`, a further `enqueue` finds its
wait predicate false and suspends (on `cond_not_full_`), whereas after one `dequeue` it
completes; and `N` subsequent dequeues all complete and return `v1..vN` in order, leaving the
buffer empty. -/
theorem blocking_full_capacity {α : Type} [Inhabited α] (N : Nat) (vs : List α) (v : α)
    (hN : 1 ≤ N) (hfit : N < SIZE_MOD) (hlen : vs.length = N) :
    ∃ h, (with_locks.History.fresh N).run (vs.map with_locks.Call.enqueue) = some h ∧
      h.queue.size_ = N ∧ h.enqueued = vs ∧ h.dequeued = [] ∧
      h.queue.enqueue v = with_locks.Outcome.blocked with_locks.CondVar.cond_not_full_ ∧
      (∃ x q1 q2 cv1 cv2, h.queue.dequeue = with_locks.Outcome.done (some x, q1) cv1 ∧
        q1.enqueue v = with_locks.Outcome.done q2 cv2) ∧
      ∃ h2, h.run (List.replicate N with_locks.Call.dequeue) = some h2 ∧
        h2.dequeued = vs ∧ h2.queue.size_ = 0 := by
  have hfresh : (with_locks.History.fresh N : with_locks.History α).Valid :=
    bl_fresh_valid N hN hfit
  have ha : with_locks.admissible (with_locks.History.fresh N : with_locks.History α).queue.capacity_
      (with_locks.History.fresh N : with_locks.History α).queue.size_
      (vs.map with_locks.Call.enqueue) = true :=
    bl_admissible_enqueues N vs 0 (by omega)
  obtain ⟨h, hr, hv, hc, hen, hde⟩ := bl_run_admissible _ _ hfresh ha
  have hc1 : h.queue.capacity_ = N := hc
  have hen1 : h.enqueued = vs := by
    rw [hen, (bl_enqueueArgs_enqueues vs).1]; simp [with_locks.History.fresh]
  have hde1 : h.dequeued = [] := by
    apply List.eq_nil_of_length_eq_zero
    rw [hde, (bl_enqueueArgs_enqueues vs).2]; simp [with_locks.History.fresh]
  have hl := bl_valid_length h hv
  rw [hen1, hde1, hlen] at hl
  have hsz : h.queue.size_ = N := by simpa using hl.symm
  have ha2 : with_locks.admissible h.queue.capacity_ h.queue.size_
      (List.replicate N (with_locks.Call.dequeue : with_locks.Call α)) = true :=
    bl_admissible_dequeues _ N _ (by omega)
  obtain ⟨h2, hr2, hv2, _, hen2, hde2⟩ := bl_run_admissible _ _ hv ha2
  rw [(bl_enqueueArgs_dequeues N).1, List.append_nil, hen1] at hen2
  rw [(bl_enqueueArgs_dequeues N).2, hde1] at hde2
  have hp : h2.dequeued <+: h2.enqueued := ⟨_, hv2.items.symm⟩
  have heq : h2.dequeued = h2.enqueued := hp.eq_of_length (by rw [hde2, hen2, hlen]; simp)
  have hl2 := bl_valid_length h2 hv2
  rw [heq] at hl2
  refine ⟨h, hr, hsz, hen1, hde1, ?_, ?_, h2, hr2, heq.trans hen2, by omega⟩
  · exact bl_enqueue_blocked h.queue v (by omega)
  · obtain ⟨x, q1, he, hq1, hcq, hsq, _, _⟩ := bl_dequeue_ok h.queue hv.wf (by omega)
    obtain ⟨q2, he2, _⟩ := bl_enqueue_ok q1 v hq1 (by omega)
    exact ⟨x, q1, q2, _, _, he, he2⟩

/-- Witness for C8: capacity 3 and the values 7, 8, 9. -/
theorem blocking_full_capacity_witness :
    (1 ≤ 3 ∧ 3 < SIZE_MOD ∧ ([7, 8, 9] : List Int).length = 3) ∧
    (∃ h, (with_locks.History.fresh 3).run
        (([7, 8, 9] : List Int).map with_locks.Call.enqueue) = some h ∧
      h.queue.size_ = 3 ∧ h.enqueued = [7, 8, 9] ∧ h.dequeued = [] ∧
      h.queue.enqueue 1 = with_locks.Outcome.blocked with_locks.CondVar.cond_not_full_ ∧
      (∃ x q1 q2 cv1 cv2, h.queue.dequeue = with_locks.Outcome.done (some x, q1) cv1 ∧
        q1.enqueue 1 = with_locks.Outcome.done q2 cv2) ∧
      ∃ h2, h.run (List.replicate 3 with_locks.Call.dequeue) = some h2 ∧
        h2.dequeued = [7, 8, 9] ∧ h2.queue.size_ = 0) ∧
    (with_locks.History.fresh 3).run
        (([7, 8, 9] : List Int).map with_locks.Call.enqueue ++
          List.replicate 3 (with_locks.Call.dequeue : with_locks.Call Int)) =
      some { queue := { buffer_ := [7, 8, 9], capacity_ := 3, head_ := 0, tail_ := 0, size_ := 0 },
             enqueued := [7, 8, 9], dequeued := [7, 8, 9] } :=
  ⟨⟨by decide, by decide, by decide⟩,
    blocking_full_capacity 3 [7, 8, 9] 1 (by decide) (by decide) (by decide), by decide⟩

/-! ## Construction -/

theorem lf_construct_with_ok {α : Type} [Inhabited α] (env : Allocator) (size : Nat) :
    (size ≤ env.max_size ∧ size ≤ env.available →
      (without_locks.LockFreeCircularBuffer.construct_with env size :
          Except AllocError (without_locks.LockFreeCircularBuffer α)) =
        Except.ok (without_locks.LockFreeCircularBuffer.construct size)) ∧
    (∀ q : without_locks.LockFreeCircularBuffer α,
      without_locks.LockFreeCircularBuffer.construct_with env size = Except.ok q →
      q = without_locks.LockFreeCircularBuffer.construct size ∧ size < SIZE_MOD) := by
  have hfit := env.fits
  constructor
  · rintro ⟨h1, h2⟩
    simp [without_locks.LockFreeCircularBuffer.construct_with, std.vector,
      without_locks.LockFreeCircularBuffer.construct, Nat.not_lt.mpr h1, Nat.not_lt.mpr h2]
  · intro q hq
    unfold without_locks.LockFreeCircularBuffer.construct_with std.vector at hq
    split_ifs at hq with h1 h2
    cases hq
    exact ⟨rfl, by omega⟩

theorem bl_construct_with_ok {α : Type} [Inhabited α] (env : Allocator) (size : Nat) :
    (size ≤ env.max_size ∧ size ≤ env.available →
      (with_locks.CircularBuffer.construct_with env size :
          Except AllocError (with_locks.CircularBuffer α)) =
        Except.ok (with_locks.CircularBuffer.construct size)) ∧
    (∀ q : with_locks.CircularBuffer α,
      with_locks.CircularBuffer.construct_with env size = Except.ok q →
      q = with_locks.CircularBuffer.construct size ∧ size < SIZE_MOD) := by
  have hfit := env.fits
  constructor
  · rintro ⟨h1, h2⟩
    simp [with_locks.CircularBuffer.construct_with, std.vector,
      with_locks.CircularBuffer.construct, Nat.not_lt.mpr h1, Nat.not_lt.mpr h2]
  · intro q hq
    unfold with_locks.CircularBuffer.construct_with std.vector at hq
    split_ifs at hq with h1 h2
    cases hq
    exact ⟨rfl, by omega⟩

/-- C7, as stated, fails: constructing either buffer with capacity 0 is not rejected. Even with
an allocator that has nothing left to give, both constructors return normally an object with
empty storage and `capacity_ == 0`, and `enqueue` on the lock-free object evaluates
`(tail + 1) % 0`. -/
theorem construction_with_capacity_zero_not_rejected :
    (without_locks.LockFreeCircularBuffer.construct_with exampleAllocator 0 :
        Except AllocError (without_locks.LockFreeCircularBuffer Int)) =
      Except.ok { buffer_ := [], capacity_ := 0, head_ := 0, tail_ := 0 } ∧
    (with_locks.CircularBuffer.construct_with exampleAllocator 0 :
        Except AllocError (with_locks.CircularBuffer Int)) =
      Except.ok { buffer_ := [], capacity_ := 0, head_ := 0, tail_ := 0, size_ := 0 } ∧
    (without_locks.LockFreeCircularBuffer.construct 0 : without_locks.LockFreeCircularBuffer Int) =
      { buffer_ := [], capacity_ := 0, head_ := 0, tail_ := 0 } ∧
    (with_locks.CircularBuffer.construct 0 : with_locks.CircularBuffer Int) =
      { buffer_ := [], capacity_ := 0, head_ := 0, tail_ := 0, size_ := 0 } ∧
    (without_locks.LockFreeCircularBuffer.construct 0 :
      without_locks.LockFreeCircularBuffer Int).enqueue 7 = none := by
  refine ⟨rfl, rfl, ?_, ?_, ?_⟩ <;> decide

/-- C7, amended. Construction with capacity 0 is not rejected: whatever the allocator, both
constructors return normally, and the object has empty storage, `capacity_ == 0` and cursors
(and `size_`) 0. On that object a blocking `enqueue` or `dequeue` finds its wait predicate false
and suspends, a lock-free `dequeue` returns `false` and changes nothing, and a lock-free
`enqueue` is undefined (`% 0`). -/
theorem construction_accepts_capacity_zero {α : Type} [Inhabited α] (env : Allocator)
    (v item : α) :
    (without_locks.LockFreeCircularBuffer.construct_with env 0 :
        Except AllocError (without_locks.LockFreeCircularBuffer α)) =
      Except.ok { buffer_ := [], capacity_ := 0, head_ := 0, tail_ := 0 } ∧
    (with_locks.CircularBuffer.construct_with env 0 :
        Except AllocError (with_locks.CircularBuffer α)) =
      Except.ok { buffer_ := [], capacity_ := 0, head_ := 0, tail_ := 0, size_ := 0 } ∧
    with_locks.CircularBuffer.enqueue
        { buffer_ := [], capacity_ := 0, head_ := 0, tail_ := 0, size_ := 0 } v =
      with_locks.Outcome.blocked with_locks.CondVar.cond_not_full_ ∧
    with_locks.CircularBuffer.dequeue
        ({ buffer_ := [], capacity_ := 0, head_ := 0, tail_ := 0, size_ := 0 } :
          with_locks.CircularBuffer α) =
      with_locks.Outcome.blocked with_locks.CondVar.cond_not_empty_ ∧
    without_locks.LockFreeCircularBuffer.dequeue
        { buffer_ := [], capacity_ := 0, head_ := 0, tail_ := 0 } item =
      some (false, item, { buffer_ := [], capacity_ := 0, head_ := 0, tail_ := 0 }) ∧
    without_locks.LockFreeCircularBuffer.enqueue
        { buffer_ := [], capacity_ := 0, head_ := 0, tail_ := 0 } v = none := by
  refine ⟨?_, ?_, ?_, ?_, ?_, ?_⟩
  · simp [without_locks.LockFreeCircularBuffer.construct_with, std.vector]
  · simp [with_locks.CircularBuffer.construct_with, std.vector]
  · simp [with_locks.CircularBuffer.enqueue]
  · simp [with_locks.CircularBuffer.dequeue]
  · simp [without_locks.LockFreeCircularBuffer.dequeue]
  · simp [without_locks.LockFreeCircularBuffer.enqueue]

/-! ## Progress of the blocking demo -/

/-- C9, evaluated on `main` (capacity 5, 10 items each way). Under the schedule that runs the
producer thread six times and then the consumer thread: after the producer has suspended on the
full ring, a `dequeue` that makes space signals `cond_not_empty_` and the producer stays
suspended on `cond_not_full_`; after six schedulings of the consumer both threads are suspended
with five of ten rounds done, and every further schedule leaves that state unchanged: neither
thread completes. -/
theorem blocking_demo_deadlocks :
    with_locks.main (List.replicate 6 with_locks.Thread.producer_thread ++
          [with_locks.Thread.consumer_thread]) =
      some { queue := { buffer_ := [0, 1, 2, 3, 4], capacity_ := 5, head_ := 1, tail_ := 0,
                        size_ := 4 },
             produced := 5, consumed := 1, output := [0],
             producer_status := with_locks.Status.waiting with_locks.CondVar.cond_not_full_,
             consumer_status := with_locks.Status.ready } ∧
    with_locks.main (with_locks.producerFirst 6) = some with_locks.deadlocked ∧
    (∀ schedule, with_locks.Demo.run 10 10 with_locks.deadlocked schedule =
      some with_locks.deadlocked) ∧
    (∀ schedule, ∃ s, with_locks.main (with_locks.producerFirst 6 ++ schedule) = some s ∧
      ¬ with_locks.Demo.finished 10 10 s) := by
  have hp : with_locks.producer 10 with_locks.deadlocked = some with_locks.deadlocked := by
    decide
  have hc : with_locks.consumer 10 with_locks.deadlocked = some with_locks.deadlocked := by
    decide
  have hstuck : ∀ schedule, with_locks.Demo.run 10 10 with_locks.deadlocked schedule =
      some with_locks.deadlocked := by
    intro schedule
    induction schedule with
    | nil => rfl
    | cons t ts ih => cases t <;> simp [with_locks.Demo.run, hp, hc, ih]
  have hmain : with_locks.main (with_locks.producerFirst 6) = some with_locks.deadlocked := by
    decide
  have happ : ∀ (ts us : List with_locks.Thread) (s s1 : with_locks.Demo),
      with_locks.Demo.run 10 10 s ts = some s1 →
      with_locks.Demo.run 10 10 s (ts ++ us) = with_locks.Demo.run 10 10 s1 us := by
    intro ts
    induction ts with
    | nil => intro us s s1 h; cases h; rfl
    | cons t ts ih =>
      intro us s s1 h
      cases t with
      | producer_thread =>
        simp only [with_locks.Demo.run, List.cons_append] at h ⊢
        cases hq : with_locks.producer 10 s with
        | none => rw [hq] at h; cases h
        | some s2 => rw [hq] at h; exact ih us s2 s1 h
      | consumer_thread =>
        simp only [with_locks.Demo.run, List.cons_append] at h ⊢
        cases hq : with_locks.consumer 10 s with
        | none => rw [hq] at h; cases h
        | some s2 => rw [hq] at h; exact ih us s2 s1 h
  refine ⟨by decide, hmain, hstuck, ?_⟩
  intro schedule
  refine ⟨with_locks.deadlocked, ?_, ?_⟩
  swap
  · unfold with_locks.Demo.finished
    decide
  unfold with_locks.main at hmain ⊢
  rw [happ _ schedule _ _ hmain]
  exact hstuck schedule

/-! ## The condition variable signalled by `dequeue` -/

/-- C11, evaluated on the code. Whenever `CircularBuffer::dequeue` completes, the condition
variable it signals is `cond_not_empty_`, the one `dequeue` itself waits on, and never
`cond_not_full_`, the one a suspended `enqueue` waits on. On a full ring of capacity 1 holding
`7`: `enqueue(8)` suspends on `cond_not_full_`, and `dequeue` returns `7` after signalling
`cond_not_empty_`. -/
theorem blocking_dequeue_signals_not_empty {α : Type} (q : with_locks.CircularBuffer α) (v : α) :
    (∀ r cv, q.dequeue = with_locks.Outcome.done r cv →
      cv = with_locks.CondVar.cond_not_empty_) ∧
    (∀ r, q.dequeue ≠ with_locks.Outcome.done r with_locks.CondVar.cond_not_full_) ∧
    (∀ cv, q.dequeue = with_locks.Outcome.blocked cv →
      cv = with_locks.CondVar.cond_not_empty_) ∧
    (∀ cv, q.enqueue v = with_locks.Outcome.blocked cv →
      cv = with_locks.CondVar.cond_not_full_) ∧
    with_locks.CircularBuffer.enqueue
        ({ buffer_ := [7], capacity_ := 1, head_ := 0, tail_ := 0, size_ := 1 } :
          with_locks.CircularBuffer Int) 8 =
      with_locks.Outcome.blocked with_locks.CondVar.cond_not_full_ ∧
    with_locks.CircularBuffer.dequeue
        ({ buffer_ := [7], capacity_ := 1, head_ := 0, tail_ := 0, size_ := 1 } :
          with_locks.CircularBuffer Int) =
      with_locks.Outcome.done
        (some 7, { buffer_ := [7], capacity_ := 1, head_ := 0, tail_ := 0, size_ := 0 })
        with_locks.CondVar.cond_not_empty_ := by
  have hd : ∀ r cv, q.dequeue = with_locks.Outcome.done r cv →
      cv = with_locks.CondVar.cond_not_empty_ := by
    intro r cv h
    unfold with_locks.CircularBuffer.dequeue at h
    split at h
    · split at h
      · cases h
      · split at h
        · cases h
        · cases h
          rfl
    · cases h
  refine ⟨hd, ?_, ?_, ?_, by decide, by decide⟩
  · intro r h
    have := hd r _ h
    cases this
  · intro cv h
    unfold with_locks.CircularBuffer.dequeue at h
    split at h
    · split at h
      · cases h
      · split at h
        · cases h
        · cases h
    · cases h
      rfl
  · intro cv h
    unfold with_locks.CircularBuffer.enqueue at h
    split at h
    · split at h
      · cases h
      · cases h
    · cases h
      rfl

/-! ## Step semantics of the lock-free calls -/

theorem lf_enqueues_succeed {α : Type} (vs : List α) :
    ∀ (h : without_locks.History α) (n : Nat), h.Valid n →
      n + vs.length < h.queue.capacity_ →
      ∃ h1, h.run (vs.map without_locks.Call.enqueue) = some h1 ∧
        h1.Valid (n + vs.length) ∧ h1.queue.capacity_ = h.queue.capacity_ ∧
        h1.enqueued = h.enqueued ++ vs ∧ h1.dequeued = h.dequeued := by
  induction vs with
  | nil =>
    intro h n hv _
    exact ⟨h, rfl, hv, rfl, by simp, rfl⟩
  | cons v vs ih =>
    intro h n hv hlt
    simp only [List.length_cons] at hlt
    obtain ⟨q1, he, hq1, hcap, _, hitems⟩ := lf_enqueue_ok h.queue n v hv.holds (by omega)
    have hv1 : without_locks.History.Valid
        { queue := q1, enqueued := h.enqueued ++ [v], dequeued := h.dequeued } (n + 1) := by
      refine ⟨hq1, ?_⟩
      show h.enqueued ++ [v] = h.dequeued ++ ringItems q1.buffer_ q1.capacity_ q1.head_ (n + 1)
      rw [hitems, hv.items, List.append_assoc]
    obtain ⟨h2, hr, hv2, hcap2, hen2, hde2⟩ := ih _ (n + 1) hv1 (by
      show n + 1 + vs.length < q1.capacity_
      rw [hcap]; omega)
    refine ⟨h2, ?_, ?_, hcap2.trans hcap, ?_, hde2⟩
    · simp [without_locks.History.run, without_locks.History.call, he, hr]
    · have e : n + (v :: vs).length = n + 1 + vs.length := by simp; omega
      rw [e]; exact hv2
    · rw [hen2]; simp

/-- C12. Lock-free variant, exact success conditions. For every capacity `>= 1` (a `size_t`) and
every state reached from a freshly constructed buffer by a sequence of calls: `enqueue(v)` is
defined and returns `true` exactly when the effective occupancy is below `capacity - 1`, and
`dequeue` is defined and returns `true` exactly when the occupancy is positive. Consequently,
on a fresh buffer of capacity `N` the first `N - 1` consecutive calls of `enqueue` all return
`true` and the `N`-th returns `false`, leaving the buffer as it was. -/
theorem lockfree_success_conditions {α : Type} [Inhabited α] (capacity : Nat)
    (calls : List (without_locks.Call α)) (v item : α) (vs : List α)
    (hcap : 1 ≤ capacity) (hfit : capacity < SIZE_MOD) (hvs : vs.length + 1 = capacity) :
    (∃ h b q1 b2 x q2, (without_locks.History.fresh capacity).run calls = some h ∧
      h.queue.enqueue v = some (b, q1) ∧
      (b = true ↔ h.occupancy < (capacity : Int) - 1) ∧
      h.queue.dequeue item = some (b2, x, q2) ∧
      (b2 = true ↔ 0 < h.occupancy)) ∧
    (∃ h, (without_locks.History.fresh capacity).run (vs.map without_locks.Call.enqueue)
        = some h ∧
      h.enqueued = vs ∧ h.dequeued = [] ∧
      h.queue.enqueue v = some (false, h.queue)) := by
  have hfresh : (without_locks.History.fresh capacity : without_locks.History α).Valid 0 :=
    lf_fresh_valid capacity hcap hfit
  constructor
  · obtain ⟨h, n, hr, hv, hc⟩ := lf_run_valid calls _ 0 hfresh
    have hc1 : h.queue.capacity_ = capacity := hc
    have hlen := lf_valid_length h n hv
    have hocc : h.occupancy = (n : Int) := by
      unfold without_locks.History.occupancy; omega
    have hlt := hv.holds.occ_lt
    rw [hc1] at hlt
    have hd : ∃ b2 x q2, h.queue.dequeue item = some (b2, x, q2) ∧ (b2 = true ↔ 0 < h.occupancy) := by
      cases n with
      | zero =>
        refine ⟨false, item, h.queue, lf_dequeue_empty h.queue item hv.holds, ?_⟩
        rw [hocc]; simp
      | succ m =>
        obtain ⟨x, q2, he, _⟩ := lf_dequeue_ok h.queue m item hv.holds
        refine ⟨true, x, q2, he, ?_⟩
        rw [hocc]; simp
    obtain ⟨b2, x, q2, hde, hiff⟩ := hd
    by_cases hn : n + 1 < h.queue.capacity_
    · obtain ⟨q1, he, _⟩ := lf_enqueue_ok h.queue n v hv.holds hn
      refine ⟨h, true, q1, b2, x, q2, hr, he, ?_, hde, hiff⟩
      rw [hocc, hc1] at *
      simp; omega
    · have hfull : n + 1 = h.queue.capacity_ := by have := hv.holds.occ_lt; omega
      refine ⟨h, false, h.queue, b2, x, q2, hr, lf_enqueue_full h.queue n v hv.holds hfull,
        ?_, hde, hiff⟩
      rw [hocc]
      rw [hc1] at hfull
      simp; omega
  · obtain ⟨h, hr, hv, hc, hen, hde⟩ := lf_enqueues_succeed vs _ 0 hfresh (by
      show 0 + vs.length < capacity
      omega)
    have hc1 : h.queue.capacity_ = capacity := hc
    refine ⟨h, hr, ?_, ?_, ?_⟩
    · rw [hen]; simp [without_locks.History.fresh]
    · rw [hde]; simp [without_locks.History.fresh]
    · exact lf_enqueue_full h.queue _ v hv.holds (by rw [hc1]; omega)

/-- Witness for C12: capacity 3, inspected after two enqueues and a dequeue (occupancy 1), and
the consecutive enqueues of 7 and 8 on a fresh buffer, after which `enqueue(9)` fails. -/
theorem lockfree_success_conditions_witness :
    (1 ≤ 3 ∧ 3 < SIZE_MOD ∧ ([7, 8] : List Int).length + 1 = 3) ∧
    ((∃ h b q1 b2 x q2, (without_locks.History.fresh 3).run
        [without_locks.Call.enqueue (1 : Int), without_locks.Call.enqueue 2,
          without_locks.Call.dequeue 0] = some h ∧
      h.queue.enqueue 9 = some (b, q1) ∧
      (b = true ↔ h.occupancy < ((3 : Nat) : Int) - 1) ∧
      h.queue.dequeue 0 = some (b2, x, q2) ∧
      (b2 = true ↔ 0 < h.occupancy)) ∧
    (∃ h, (without_locks.History.fresh 3).run
        (([7, 8] : List Int).map without_locks.Call.enqueue) = some h ∧
      h.enqueued = [7, 8] ∧ h.dequeued = [] ∧
      h.queue.enqueue 9 = some (false, h.queue))) ∧
    (without_locks.History.fresh 3).run
        (([7, 8, 9] : List Int).map without_locks.Call.enqueue) =
      some { queue := { buffer_ := [7, 8, 0], capacity_ := 3, head_ := 0, tail_ := 2 },
             enqueued := [7, 8], dequeued := [] } :=
  ⟨⟨by decide, by decide, by decide⟩,
    lockfree_success_conditions 3 _ 9 0 [7, 8] (by decide) (by decide) (by decide),
    by decide⟩

/-- C13. Lock-free `enqueue`, success postcondition. For every state with capacity `>= 1` (a
`size_t`, with storage of that length) and `tail < capacity` in which
`(tail + 1) mod capacity != head`: `enqueue(v)` returns `true`, the slot at the old tail index
holds `v`, the new tail is `(old tail + 1) mod capacity`, `head_` is unchanged, and every other
slot is unchanged. -/
theorem lockfree_enqueue_success {α : Type} (q : without_locks.LockFreeCircularBuffer α) (v : α)
    (hcap : 1 ≤ q.capacity_) (hfit : q.capacity_ < SIZE_MOD)
    (hlen : q.buffer_.length = q.capacity_) (htail : q.tail_ < q.capacity_)
    (hne : (q.tail_ + 1) % q.capacity_ ≠ q.head_) :
    ∃ q1, q.enqueue v = some (true, q1) ∧
      q1.buffer_[q.tail_]? = some v ∧
      q1.tail_ = (q.tail_ + 1) % q.capacity_ ∧
      q1.head_ = q.head_ ∧
      q1.capacity_ = q.capacity_ ∧
      q1.buffer_.length = q.buffer_.length ∧
      (∀ i, i ≠ q.tail_ → q1.buffer_[i]? = q.buffer_[i]?) := by
  have hc : q.capacity_ ≠ 0 := by omega
  have hw : (q.tail_ + 1) % SIZE_MOD = q.tail_ + 1 := Nat.mod_eq_of_lt (by omega)
  have htl : q.tail_ < q.buffer_.length := by rw [hlen]; exact htail
  refine ⟨{ q with buffer_ := q.buffer_.set q.tail_ v, tail_ := (q.tail_ + 1) % q.capacity_ },
    ?_, ?_, rfl, rfl, rfl, ?_, ?_⟩
  · simp [without_locks.LockFreeCircularBuffer.enqueue, hc, hw, hne, htl]
  · exact List.getElem?_set_self htl
  · simp
  · intro i hi
    exact List.getElem?_set_ne (Ne.symm hi)

/-- Witness for C13: capacity 3, head 1, tail 2, so that the new tail wraps to 0. -/
theorem lockfree_enqueue_success_witness :
    ∃ q1, without_locks.LockFreeCircularBuffer.enqueue
        ({ buffer_ := [4, 5, 6], capacity_ := 3, head_ := 1, tail_ := 2 } :
          without_locks.LockFreeCircularBuffer Int) 9 = some (true, q1) ∧
      q1.buffer_[2]? = some 9 ∧
      q1.tail_ = (2 + 1) % 3 ∧
      q1.head_ = 1 ∧
      q1.capacity_ = 3 ∧
      q1.buffer_.length = ([4, 5, 6] : List Int).length ∧
      (∀ i, i ≠ 2 → q1.buffer_[i]? = ([4, 5, 6] : List Int)[i]?) :=
  lockfree_enqueue_success
    ({ buffer_ := [4, 5, 6], capacity_ := 3, head_ := 1, tail_ := 2 } :
      without_locks.LockFreeCircularBuffer Int) 9
    (by decide) (by decide) (by decide) (by decide) (by decide)

/-- C14. Lock-free `dequeue`, success postcondition and frame. For every state with capacity
`>= 1` (a `size_t`, with storage of that length) and `head < capacity` in which
`head != tail`: `dequeue` returns `true`, the item delivered is the value stored in the slot at
the old head index, the new head is `(old head + 1) mod capacity`, `tail_` is unchanged and the
whole storage is unchanged (the slot read is not cleared). -/
theorem lockfree_dequeue_success {α : Type} (q : without_locks.LockFreeCircularBuffer α)
    (item : α) (hcap : 1 ≤ q.capacity_) (hfit : q.capacity_ < SIZE_MOD)
    (hlen : q.buffer_.length = q.capacity_) (hhead : q.head_ < q.capacity_)
    (hne : q.head_ ≠ q.tail_) :
    ∃ x q1, q.dequeue item = some (true, x, q1) ∧
      q.buffer_[q.head_]? = some x ∧
      q1.head_ = (q.head_ + 1) % q.capacity_ ∧
      q1.tail_ = q.tail_ ∧
      q1.buffer_ = q.buffer_ ∧
      q1.capacity_ = q.capacity_ := by
  have hc : q.capacity_ ≠ 0 := by omega
  have hw : (q.head_ + 1) % SIZE_MOD = q.head_ + 1 := Nat.mod_eq_of_lt (by omega)
  have hhl : q.head_ < q.buffer_.length := by rw [hlen]; exact hhead
  have hx : q.buffer_[q.head_]? = some (q.buffer_[q.head_]) := List.getElem?_eq_getElem hhl
  refine ⟨q.buffer_[q.head_], { q with head_ := (q.head_ + 1) % q.capacity_ },
    ?_, hx, rfl, rfl, rfl, rfl⟩
  simp [without_locks.LockFreeCircularBuffer.dequeue, hne, hc, hw, hx]

/-- Witness for C14: capacity 3, head 2, tail 1, so that the new head wraps to 0. -/
theorem lockfree_dequeue_success_witness :
    ∃ x q1, without_locks.LockFreeCircularBuffer.dequeue
        ({ buffer_ := [4, 5, 6], capacity_ := 3, head_ := 2, tail_ := 1 } :
          without_locks.LockFreeCircularBuffer Int) 0 = some (true, x, q1) ∧
      ([4, 5, 6] : List Int)[2]? = some x ∧
      q1.head_ = (2 + 1) % 3 ∧
      q1.tail_ = 1 ∧
      q1.buffer_ = [4, 5, 6] ∧
      q1.capacity_ = 3 :=
  lockfree_dequeue_success
    ({ buffer_ := [4, 5, 6], capacity_ := 3, head_ := 2, tail_ := 1 } :
      without_locks.LockFreeCircularBuffer Int) 0
    (by decide) (by decide) (by decide) (by decide) (by decide)

/-! ## Step semantics of the blocking calls -/

theorem bl_dequeue_done_cv {α : Type} (q : with_locks.CircularBuffer α)
    (r : Option α × with_locks.CircularBuffer α) (cv : with_locks.CondVar)
    (h : q.dequeue = with_locks.Outcome.done r cv) :
    cv = with_locks.CondVar.cond_not_empty_ ∧ r.1 ≠ none ∧ 0 < q.size_ := by
  unfold with_locks.CircularBuffer.dequeue at h
  split at h
  · rename_i hs
    split at h
    · cases h
    · split at h
      · cases h
      · cases h
        exact ⟨rfl, by simp, hs⟩
  · cases h

theorem bl_demo_run_append (P C : Nat) (ts us : List with_locks.Thread) :
    ∀ s s1 : with_locks.Demo, with_locks.Demo.run P C s ts = some s1 →
      with_locks.Demo.run P C s (ts ++ us) = with_locks.Demo.run P C s1 us := by
  induction ts with
  | nil => intro s s1 h; cases h; rfl
  | cons t ts ih =>
    intro s s1 h
    cases t with
    | producer_thread =>
      simp only [with_locks.Demo.run, List.cons_append] at h ⊢
      cases hq : with_locks.producer P s with
      | none => rw [hq] at h; cases h
      | some s2 => rw [hq] at h; exact ih s2 s1 h
    | consumer_thread =>
      simp only [with_locks.Demo.run, List.cons_append] at h ⊢
      cases hq : with_locks.consumer C s with
      | none => rw [hq] at h; cases h
      | some s2 => rw [hq] at h; exact ih s2 s1 h

theorem bl_notify_not_empty_keeps_producer (s : with_locks.Demo)
    (hp : s.producer_status = with_locks.Status.waiting with_locks.CondVar.cond_not_full_) :
    (with_locks.notify_one with_locks.CondVar.cond_not_empty_ s).producer_status =
        with_locks.Status.waiting with_locks.CondVar.cond_not_full_ ∧
      (with_locks.notify_one with_locks.CondVar.cond_not_empty_ s).produced = s.produced := by
  unfold with_locks.notify_one
  have hne : ¬ s.producer_status =
      with_locks.Status.waiting with_locks.CondVar.cond_not_empty_ := by
    rw [hp]; decide
  rw [if_neg hne]
  split_ifs
  · exact ⟨hp, rfl⟩
  · exact ⟨hp, rfl⟩

theorem bl_consumer_keeps_producer (C : Nat) (s s1 : with_locks.Demo)
    (hp : s.producer_status = with_locks.Status.waiting with_locks.CondVar.cond_not_full_)
    (hc : with_locks.consumer C s = some s1) :
    s1.producer_status = with_locks.Status.waiting with_locks.CondVar.cond_not_full_ ∧
      s1.produced = s.produced := by
  unfold with_locks.consumer at hc
  split at hc
  · cases hd : s.queue.dequeue with
    | done r cv =>
      obtain ⟨hcv, _, _⟩ := bl_dequeue_done_cv s.queue r cv hd
      subst hcv
      rw [hd] at hc
      obtain ⟨x, q1⟩ := r
      cases x with
      | none =>
        simp only [Option.some.injEq] at hc
        rw [← hc]
        exact bl_notify_not_empty_keeps_producer _ hp
      | some item =>
        simp only [Option.some.injEq] at hc
        rw [← hc]
        exact bl_notify_not_empty_keeps_producer _ hp
    | blocked cv =>
      rw [hd] at hc
      simp only [Option.some.injEq] at hc
      rw [← hc]
      exact ⟨hp, rfl⟩
    | undefined =>
      rw [hd] at hc
      cases hc
  · cases hc
    exact ⟨hp, rfl⟩

theorem bl_producer_stays_suspended (P C : Nat) (ts : List with_locks.Thread) :
    ∀ s s1 : with_locks.Demo,
      s.producer_status = with_locks.Status.waiting with_locks.CondVar.cond_not_full_ →
      with_locks.Demo.run P C s ts = some s1 →
      s1.producer_status = with_locks.Status.waiting with_locks.CondVar.cond_not_full_ ∧
        s1.produced = s.produced := by
  induction ts with
  | nil => intro s s1 hp h; cases h; exact ⟨hp, rfl⟩
  | cons t ts ih =>
    intro s s1 hp h
    cases t with
    | producer_thread =>
      have hq : with_locks.producer P s = some s := by
        simp [with_locks.producer, hp]
      simp only [with_locks.Demo.run, hq] at h
      exact ih s s1 hp h
    | consumer_thread =>
      simp only [with_locks.Demo.run] at h
      cases hq : with_locks.consumer C s with
      | none => rw [hq] at h; cases h
      | some s2 =>
        rw [hq] at h
        obtain ⟨hp2, hpr⟩ := bl_consumer_keeps_producer C s s2 hp hq
        obtain ⟨hp3, hpr3⟩ := ih s2 s1 hp2 h
        exact ⟨hp3, hpr3.trans hpr⟩

/-- C15, evaluated on the code. What holds is the step: in every state with capacity `>= 1`
(a `size_t`, storage of that length) and `tail_` in range, `enqueue(v)` completes when
`size_ < capacity_` holds as it evaluates its wait predicate, with the slot at the old `tail_`
holding `v`, `tail_ = (old tail_ + 1) mod capacity_`, `size_ = old size_ + 1`, `head_` and the
other slots unchanged, and it suspends on `cond_not_full_` otherwise. What fails is "or becomes
true": in `main`, after the producer was scheduled six times and the consumer once, the sixth
`enqueue` is suspended, `size_ < capacity_` has become true and the call would complete if it
evaluated its predicate again, but the producer is still suspended and, under every further
schedule, stays so with five items produced. -/
theorem blocking_enqueue_not_woken :
    (∀ (α : Type) (q : with_locks.CircularBuffer α) (v : α),
      1 ≤ q.capacity_ → q.capacity_ < SIZE_MOD → q.buffer_.length = q.capacity_ →
      q.tail_ < q.capacity_ →
      (q.size_ < q.capacity_ →
        q.enqueue v = with_locks.Outcome.done
          { q with buffer_ := q.buffer_.set q.tail_ v
                   tail_ := (q.tail_ + 1) % q.capacity_
                   size_ := q.size_ + 1 }
          with_locks.CondVar.cond_not_empty_ ∧
        (q.buffer_.set q.tail_ v)[q.tail_]? = some v ∧
        ∀ i, i ≠ q.tail_ → (q.buffer_.set q.tail_ v)[i]? = q.buffer_[i]?) ∧
      (¬ q.size_ < q.capacity_ →
        q.enqueue v = with_locks.Outcome.blocked with_locks.CondVar.cond_not_full_)) ∧
    with_locks.main (List.replicate 6 with_locks.Thread.producer_thread ++
        [with_locks.Thread.consumer_thread]) = some with_locks.producerSuspended ∧
    with_locks.producerSuspended.queue.size_ < with_locks.producerSuspended.queue.capacity_ ∧
    with_locks.producerSuspended.queue.enqueue 5 =
      with_locks.Outcome.done
        { buffer_ := [5, 1, 2, 3, 4], capacity_ := 5, head_ := 1, tail_ := 1, size_ := 5 }
        with_locks.CondVar.cond_not_empty_ ∧
    with_locks.producer 10 with_locks.producerSuspended = some with_locks.producerSuspended ∧
    (∀ schedule, ∃ s,
      with_locks.main ((List.replicate 6 with_locks.Thread.producer_thread ++
        [with_locks.Thread.consumer_thread]) ++ schedule) = some s ∧
      s.produced = 5 ∧
      s.producer_status = with_locks.Status.waiting with_locks.CondVar.cond_not_full_) := by
  have hmain : with_locks.main (List.replicate 6 with_locks.Thread.producer_thread ++
      [with_locks.Thread.consumer_thread]) = some with_locks.producerSuspended := by decide
  refine ⟨?_, hmain, by decide, by decide, by decide, ?_⟩
  · intro α q v hcap hfit hlen htail
    have htl : q.tail_ < q.buffer_.length := by rw [hlen]; exact htail
    refine ⟨fun hs => ⟨?_, List.getElem?_set_self htl,
      fun i hi => List.getElem?_set_ne (Ne.symm hi)⟩, fun hs => bl_enqueue_blocked q v hs⟩
    have hw : (q.tail_ + 1) % SIZE_MOD = q.tail_ + 1 := Nat.mod_eq_of_lt (by omega)
    have hz : (q.size_ + 1) % SIZE_MOD = q.size_ + 1 := Nat.mod_eq_of_lt (by omega)
    simp [with_locks.CircularBuffer.enqueue, hs, htl, hw, hz]
  · intro schedule
    obtain ⟨s0, hr0, hv0⟩ := bl_demo_run_valid 10 10
      (List.replicate 6 with_locks.Thread.producer_thread ++ [with_locks.Thread.consumer_thread])
      _ (bl_start_valid 10 5 (by decide) (by decide))
    unfold with_locks.main at hmain ⊢
    rw [hmain] at hr0
    cases hr0
    obtain ⟨s, hr, _⟩ := bl_demo_run_valid 10 10 schedule _ hv0
    obtain ⟨hst, hpr⟩ := bl_producer_stays_suspended 10 10 schedule _ s rfl hr
    refine ⟨s, ?_, hpr, hst⟩
    rw [bl_demo_run_append 10 10 _ schedule _ _ hmain]
    exact hr

theorem bl_notify_fields (cv : with_locks.CondVar) (s : with_locks.Demo) :
    (with_locks.notify_one cv s).queue = s.queue ∧
    (with_locks.notify_one cv s).consumed = s.consumed ∧
    (with_locks.notify_one cv s).produced = s.produced ∧
    (with_locks.notify_one cv s).output = s.output := by
  unfold with_locks.notify_one
  split_ifs <;> exact ⟨rfl, rfl, rfl, rfl⟩

theorem bl_producer_wakes_consumer (s : with_locks.Demo) (P C : Nat)
    (hwf : s.queue.WellFormed)
    (hcs : s.consumer_status = with_locks.Status.waiting with_locks.CondVar.cond_not_empty_)
    (hps : s.producer_status = with_locks.Status.ready)
    (hp : s.produced < P) (hc : s.consumed < C) (hs : s.queue.size_ < s.queue.capacity_) :
    ∃ s1 s2, with_locks.producer P s = some s1 ∧
      s1.consumer_status = with_locks.Status.ready ∧ 0 < s1.queue.size_ ∧
      with_locks.consumer C s1 = some s2 ∧ s2.consumed = s.consumed + 1 := by
  obtain ⟨q1, he, hq1, _, _, hsz, _⟩ := bl_enqueue_ok s.queue (s.produced : Int) hwf hs
  have hne : ¬ (with_locks.Status.ready =
      with_locks.Status.waiting with_locks.CondVar.cond_not_empty_) := by decide
  have h1 : with_locks.producer P s =
      some { s with queue := q1, produced := s.produced + 1,
                    consumer_status := with_locks.Status.ready } := by
    simp [with_locks.producer, hp, hps, he, with_locks.notify_one, hcs]
  have hpos : 0 < q1.size_ := by omega
  obtain ⟨x, q2, hd, _⟩ := bl_dequeue_ok q1 hq1 hpos
  refine ⟨_, with_locks.notify_one with_locks.CondVar.cond_not_empty_
    { queue := q2, produced := s.produced + 1, consumed := s.consumed + 1,
      output := s.output ++ [x], producer_status := s.producer_status,
      consumer_status := with_locks.Status.ready }, h1, rfl, hpos, ?_, ?_⟩
  · simp [with_locks.consumer, hc, hd]
  · exact (bl_notify_fields _ _).2.1

/-- C16. Blocking `dequeue`, step semantics. For every state with capacity `>= 1` (a `size_t`,
storage of that length), `head_` in range and `size_ <= capacity_`: `dequeue` completes exactly
when `size_ > 0` holds as it evaluates its wait predicate, and suspends on `cond_not_empty_`
otherwise; on completion it returns a present optional holding the value stored at the old
`head_`, with `head_ = (old head_ + 1) mod capacity_`, `size_ = old size_ - 1`, and `tail_` and
the storage unchanged; it never returns an empty optional. And `size_ > 0` becoming true wakes
it: when the consumer is suspended in `dequeue` and the producer completes an `enqueue`, the
consumer is runnable again and its `dequeue` completes at its next scheduling. -/
theorem blocking_dequeue_step {α : Type} (q : with_locks.CircularBuffer α)
    (hcap : 1 ≤ q.capacity_) (hfit : q.capacity_ < SIZE_MOD)
    (hlen : q.buffer_.length = q.capacity_) (hhead : q.head_ < q.capacity_)
    (hsize : q.size_ ≤ q.capacity_) :
    (0 < q.size_ → ∃ x, q.buffer_[q.head_]? = some x ∧
      q.dequeue = with_locks.Outcome.done
        (some x, { q with head_ := (q.head_ + 1) % q.capacity_, size_ := q.size_ - 1 })
        with_locks.CondVar.cond_not_empty_) ∧
    (¬ 0 < q.size_ →
      q.dequeue = with_locks.Outcome.blocked with_locks.CondVar.cond_not_empty_) ∧
    ((∃ r cv, q.dequeue = with_locks.Outcome.done r cv) ↔ 0 < q.size_) ∧
    (∀ r cv, q.dequeue = with_locks.Outcome.done r cv → r.1 ≠ none) ∧
    (∀ (s : with_locks.Demo) (P C : Nat), s.queue.WellFormed →
      s.consumer_status = with_locks.Status.waiting with_locks.CondVar.cond_not_empty_ →
      s.producer_status = with_locks.Status.ready →
      s.produced < P → s.consumed < C → s.queue.size_ < s.queue.capacity_ →
      ∃ s1 s2, with_locks.producer P s = some s1 ∧
        s1.consumer_status = with_locks.Status.ready ∧ 0 < s1.queue.size_ ∧
        with_locks.consumer C s1 = some s2 ∧ s2.consumed = s.consumed + 1) := by
  have hc : q.capacity_ ≠ 0 := by omega
  have hhl : q.head_ < q.buffer_.length := by rw [hlen]; exact hhead
  have hx : q.buffer_[q.head_]? = some (q.buffer_[q.head_]) := List.getElem?_eq_getElem hhl
  have hw : (q.head_ + 1) % SIZE_MOD = q.head_ + 1 := Nat.mod_eq_of_lt (by omega)
  have hdone : 0 < q.size_ → q.dequeue = with_locks.Outcome.done
      (some (q.buffer_[q.head_]),
        { q with head_ := (q.head_ + 1) % q.capacity_, size_ := q.size_ - 1 })
      with_locks.CondVar.cond_not_empty_ := by
    intro hs
    have hz : (q.size_ + SIZE_MOD - 1) % SIZE_MOD = q.size_ - 1 := by
      have e : q.size_ + SIZE_MOD - 1 = (q.size_ - 1) + SIZE_MOD := by omega
      rw [e, Nat.add_mod_right]
      exact Nat.mod_eq_of_lt (by omega)
    simp [with_locks.CircularBuffer.dequeue, hs, hc, hx, hw, hz]
  refine ⟨fun hs => ⟨_, hx, hdone hs⟩, fun hs => bl_dequeue_blocked q hs, ?_, ?_, ?_⟩
  · constructor
    · rintro ⟨r, cv, h⟩
      exact (bl_dequeue_done_cv q r cv h).2.2
    · intro hs
      exact ⟨_, _, hdone hs⟩
  · intro r cv h
    exact (bl_dequeue_done_cv q r cv h).2.1
  · intro s P C hwf hcs hps hp hcn hs
    exact bl_producer_wakes_consumer s P C hwf hcs hps hp hcn hs

/-- Witness for C16: a ring of capacity 3 holding 6 and 4 (head 2, tail 1, size 2): `dequeue`
returns 6, the head wraps to 0 and the size drops to 1. -/
theorem blocking_dequeue_step_witness :
    ∃ x, ([4, 5, 6] : List Int)[2]? = some x ∧
      with_locks.CircularBuffer.dequeue
        ({ buffer_ := [4, 5, 6], capacity_ := 3, head_ := 2, tail_ := 1, size_ := 2 } :
          with_locks.CircularBuffer Int) =
      with_locks.Outcome.done
        (some x, { buffer_ := [4, 5, 6], capacity_ := 3, head_ := (2 + 1) % 3, tail_ := 1,
                   size_ := 2 - 1 })
        with_locks.CondVar.cond_not_empty_ :=
  (blocking_dequeue_step
    ({ buffer_ := [4, 5, 6], capacity_ := 3, head_ := 2, tail_ := 1, size_ := 2 } :
      with_locks.CircularBuffer Int)
    (by decide) (by decide) (by decide) (by decide) (by decide)).1 (by decide)

/-! ## Invariants of the reachable states -/

theorem bl_reachable_valid {α : Type} [Inhabited α] (capacity : Nat)
    (calls : List (with_locks.Call α)) (h : with_locks.History α)
    (hcap : 1 ≤ capacity) (hfit : capacity < SIZE_MOD)
    (hrun : (with_locks.History.fresh capacity).run calls = some h) :
    h.Valid ∧ h.queue.capacity_ = capacity ∧ h.enqueued = with_locks.enqueueArgs calls ∧
      h.dequeued.length = with_locks.dequeueCount calls := by
  have hfresh : (with_locks.History.fresh capacity : with_locks.History α).Valid :=
    bl_fresh_valid capacity hcap hfit
  have ha := bl_run_some calls _ h hfresh hrun
  obtain ⟨h1, hr, hv, hc, hen, hde⟩ := bl_run_admissible calls _ hfresh ha
  rw [hrun] at hr
  cases hr
  refine ⟨hv, hc, ?_, ?_⟩
  · rw [hen]; simp [with_locks.History.fresh]
  · rw [hde]; simp [with_locks.History.fresh]

theorem ringItems_getElem? {α : Type} (buf : List α) (cap head : Nat) (hc : 0 < cap)
    (hl : buf.length = cap) :
    ∀ n k, k < n → (ringItems buf cap head n)[k]? = buf[(head + k) % cap]? := by
  intro n
  induction n with
  | zero => intro k hk; omega
  | succ n ih =>
    intro k hk
    have hlt : (head + n) % cap < buf.length := by rw [hl]; exact Nat.mod_lt _ hc
    have hsucc : ringItems buf cap head (n + 1) =
        ringItems buf cap head n ++ [buf[(head + n) % cap]] := by
      unfold ringItems
      rw [List.range_succ, List.filterMap_append]
      simp [List.getElem?_eq_getElem hlt]
    have hlen := ringItems_length buf cap head n hc hl
    rw [hsucc]
    by_cases hkn : k < n
    · rw [List.getElem?_append_left (by rw [hlen]; exact hkn)]
      exact ih k hkn
    · have e : k = n := by omega
      subst e
      rw [List.getElem?_append_right (by rw [hlen]), hlen, Nat.sub_self]
      simp [List.getElem?_eq_getElem hlt]

/-- C17. Cursor range invariant and in-bounds access, for both variants. For every capacity
`>= 1` (a `size_t`): every state reached from a freshly constructed lock-free buffer by a
sequence of calls, and every state reached from a freshly constructed blocking buffer by
completed calls, has `head < capacity`, `tail < capacity` and storage of length `capacity`; so
`buffer_[tail]` and `buffer_[head]` are within bounds and the next `enqueue` or `dequeue` is
defined. -/
theorem cursors_in_range {α : Type} [Inhabited α] (capacity : Nat)
    (lfcalls : List (without_locks.Call α)) (blcalls : List (with_locks.Call α))
    (hb : with_locks.History α) (v item : α)
    (hcap : 1 ≤ capacity) (hfit : capacity < SIZE_MOD)
    (hrun : (with_locks.History.fresh capacity).run blcalls = some hb) :
    (∃ h, (without_locks.History.fresh capacity).run lfcalls = some h ∧
      h.queue.capacity_ = capacity ∧
      h.queue.head_ < capacity ∧ h.queue.tail_ < capacity ∧
      h.queue.buffer_.length = capacity ∧
      h.queue.tail_ < h.queue.buffer_.length ∧ h.queue.head_ < h.queue.buffer_.length ∧
      h.queue.enqueue v ≠ none ∧ h.queue.dequeue item ≠ none) ∧
    (hb.queue.capacity_ = capacity ∧
      hb.queue.head_ < capacity ∧ hb.queue.tail_ < capacity ∧
      hb.queue.buffer_.length = capacity ∧
      hb.queue.tail_ < hb.queue.buffer_.length ∧ hb.queue.head_ < hb.queue.buffer_.length ∧
      hb.queue.enqueue v ≠ with_locks.Outcome.undefined ∧
      hb.queue.dequeue ≠ with_locks.Outcome.undefined) := by
  constructor
  · obtain ⟨h, n, hr, hv, hc⟩ :=
      lf_run_valid lfcalls _ 0 (lf_fresh_valid capacity hcap hfit)
    have hc1 : h.queue.capacity_ = capacity := hc
    have hh := hv.holds.head_lt
    have ht := lf_tail_lt h.queue n hv.holds
    have hl := hv.holds.len
    rw [hc1] at hh ht hl
    refine ⟨h, hr, hc1, hh, ht, hl, by omega, by omega, ?_, ?_⟩
    · by_cases hn : n + 1 < h.queue.capacity_
      · obtain ⟨q1, he, _⟩ := lf_enqueue_ok h.queue n v hv.holds hn
        rw [he]; simp
      · have hfull : n + 1 = h.queue.capacity_ := by have := hv.holds.occ_lt; omega
        rw [lf_enqueue_full h.queue n v hv.holds hfull]; simp
    · cases n with
      | zero => rw [lf_dequeue_empty h.queue item hv.holds]; simp
      | succ m =>
        obtain ⟨x, q1, he, _⟩ := lf_dequeue_ok h.queue m item hv.holds
        rw [he]; simp
  · obtain ⟨hv, hc, _, _⟩ := bl_reachable_valid capacity blcalls hb hcap hfit hrun
    have hh := hv.wf.head_lt
    have ht : hb.queue.tail_ < hb.queue.capacity_ := by
      rw [hv.wf.tail_eq]; exact Nat.mod_lt _ hv.wf.cap_pos
    have hl := hv.wf.len
    rw [hc] at hh ht hl
    refine ⟨hc, hh, ht, hl, by omega, by omega, ?_, ?_⟩
    · by_cases hs : hb.queue.size_ < hb.queue.capacity_
      · obtain ⟨q1, he, _⟩ := bl_enqueue_ok hb.queue v hv.wf hs
        rw [he]; simp
      · rw [bl_enqueue_blocked hb.queue v hs]; simp
    · by_cases hs : 0 < hb.queue.size_
      · obtain ⟨x, q1, he, _⟩ := bl_dequeue_ok hb.queue hv.wf hs
        rw [he]; simp
      · rw [bl_dequeue_blocked hb.queue hs]; simp

/-- Witness for C17: capacity 5, the lock-free example calls, and the first eight calls of the
blocking example sequence. -/
theorem cursors_in_range_witness :
    (1 ≤ 5 ∧ 5 < SIZE_MOD ∧
      (with_locks.History.fresh 5).run (with_locks.exampleCalls.take 8) =
        some { queue := { buffer_ := [0, 1, 2, 3, 4], capacity_ := 5, head_ := 3, tail_ := 0,
                          size_ := 2 },
               enqueued := [0, 1, 2, 3, 4], dequeued := [0, 1, 2] }) ∧
    (∃ h, (without_locks.History.fresh 5).run without_locks.exampleCalls = some h ∧
      h.queue.capacity_ = 5 ∧
      h.queue.head_ < 5 ∧ h.queue.tail_ < 5 ∧
      h.queue.buffer_.length = 5 ∧
      h.queue.tail_ < h.queue.buffer_.length ∧ h.queue.head_ < h.queue.buffer_.length ∧
      h.queue.enqueue 1 ≠ none ∧ h.queue.dequeue 0 ≠ none) ∧
    (3 : Nat) < 5 ∧ (0 : Nat) < 5 :=
  ⟨⟨by decide, by decide, by decide⟩,
    (cursors_in_range 5 without_locks.exampleCalls (with_locks.exampleCalls.take 8)
      { queue := { buffer_ := [0, 1, 2, 3, 4], capacity_ := 5, head_ := 3, tail_ := 0,
                   size_ := 2 },
        enqueued := [0, 1, 2, 3, 4], dequeued := [0, 1, 2] }
      1 0 (by decide) (by decide) (by decide)).1,
    (cursors_in_range 5 without_locks.exampleCalls (with_locks.exampleCalls.take 8)
      { queue := { buffer_ := [0, 1, 2, 3, 4], capacity_ := 5, head_ := 3, tail_ := 0,
                   size_ := 2 },
        enqueued := [0, 1, 2, 3, 4], dequeued := [0, 1, 2] }
      1 0 (by decide) (by decide) (by decide)).2.2.1,
    (cursors_in_range 5 without_locks.exampleCalls (with_locks.exampleCalls.take 8)
      { queue := { buffer_ := [0, 1, 2, 3, 4], capacity_ := 5, head_ := 3, tail_ := 0,
                   size_ := 2 },
        enqueued := [0, 1, 2, 3, 4], dequeued := [0, 1, 2] }
      1 0 (by decide) (by decide) (by decide)).2.2.2.1⟩

/-- C18. Blocking variant, cursor/count consistency. For every capacity `>= 1` (a `size_t`), in
every state reached from a freshly constructed buffer by completed calls:
`tail_ == (head_ + size_) mod capacity_`; `head_ == tail_` exactly when `size_ == 0` or
`size_ == capacity_`; and the `size_` items held, read from the slots `head_`, `head_ + 1`, ...,
`head_ + size_ - 1` modulo `capacity_`, are the values enqueued and not yet dequeued, in enqueue
order. -/
theorem blocking_cursor_count_consistency {α : Type} [Inhabited α] (capacity : Nat)
    (calls : List (with_locks.Call α)) (h : with_locks.History α)
    (hcap : 1 ≤ capacity) (hfit : capacity < SIZE_MOD)
    (hrun : (with_locks.History.fresh capacity).run calls = some h) :
    h.queue.tail_ = (h.queue.head_ + h.queue.size_) % h.queue.capacity_ ∧
    (h.queue.head_ = h.queue.tail_ ↔
      (h.queue.size_ = 0 ∨ h.queue.size_ = h.queue.capacity_)) ∧
    h.queue.size_ + with_locks.dequeueCount calls = (with_locks.enqueueArgs calls).length ∧
    (∀ k, k < h.queue.size_ →
      h.queue.buffer_[(h.queue.head_ + k) % h.queue.capacity_]? =
        (with_locks.enqueueArgs calls)[with_locks.dequeueCount calls + k]?) ∧
    ringItems h.queue.buffer_ h.queue.capacity_ h.queue.head_ h.queue.size_ =
      (with_locks.enqueueArgs calls).drop (with_locks.dequeueCount calls) := by
  obtain ⟨hv, _, hen, hde⟩ := bl_reachable_valid capacity calls h hcap hfit hrun
  have hitems := hv.items
  rw [hen] at hitems
  have hlen := bl_valid_length h hv
  rw [hen, hde] at hlen
  have hdrop : ringItems h.queue.buffer_ h.queue.capacity_ h.queue.head_ h.queue.size_ =
      (with_locks.enqueueArgs calls).drop (with_locks.dequeueCount calls) := by
    rw [hitems, ← hde, List.drop_left]
  refine ⟨hv.wf.tail_eq, ?_, by omega, ?_, hdrop⟩
  · have ht := hv.wf.tail_eq
    rw [ring_add_mod _ _ _ hv.wf.head_lt hv.wf.size_le] at ht
    have h1 := hv.wf.head_lt
    have h2 := hv.wf.size_le
    split_ifs at ht <;> constructor <;> intro hx <;> omega
  · intro k hk
    rw [← ringItems_getElem? _ _ _ hv.wf.cap_pos hv.wf.len _ k hk, hdrop, List.getElem?_drop]

/-- Witness for C18: capacity 5 and the first eight calls of the example sequence (five enqueues,
three dequeues): the ring is `[0, 1, 2, 3, 4]` with head 3, tail 0 and size 2, holding 3 and 4. -/
theorem blocking_cursor_count_consistency_witness :
    (1 ≤ 5 ∧ 5 < SIZE_MOD ∧
      (with_locks.History.fresh 5).run (with_locks.exampleCalls.take 8) =
        some { queue := { buffer_ := [0, 1, 2, 3, 4], capacity_ := 5, head_ := 3, tail_ := 0,
                          size_ := 2 },
               enqueued := [0, 1, 2, 3, 4], dequeued := [0, 1, 2] }) ∧
    (0 : Nat) = (3 + 2) % 5 ∧
    ringItems ([0, 1, 2, 3, 4] : List Int) 5 3 2 =
      (with_locks.enqueueArgs (with_locks.exampleCalls.take 8)).drop
        (with_locks.dequeueCount (with_locks.exampleCalls.take 8)) ∧
    ringItems ([0, 1, 2, 3, 4] : List Int) 5 3 2 = [3, 4] :=
  ⟨⟨by decide, by decide, by decide⟩,
    (blocking_cursor_count_consistency 5 (with_locks.exampleCalls.take 8)
      { queue := { buffer_ := [0, 1, 2, 3, 4], capacity_ := 5, head_ := 3, tail_ := 0,
                   size_ := 2 },
        enqueued := [0, 1, 2, 3, 4], dequeued := [0, 1, 2] }
      (by decide) (by decide) (by decide)).1,
    (blocking_cursor_count_consistency 5 (with_locks.exampleCalls.take 8)
      { queue := { buffer_ := [0, 1, 2, 3, 4], capacity_ := 5, head_ := 3, tail_ := 0,
                   size_ := 2 },
        enqueued := [0, 1, 2, 3, 4], dequeued := [0, 1, 2] }
      (by decide) (by decide) (by decide)).2.2.2.2,
    by decide⟩

/-! ## The two variants side by side -/

theorem sim_fresh {α : Type} [Inhabited α] (N : Nat) (hN : 1 ≤ N) (hfit : N + 1 < SIZE_MOD) :
    Simulates (without_locks.LockFreeCircularBuffer.construct (N + 1) :
        without_locks.LockFreeCircularBuffer α)
      (with_locks.CircularBuffer.construct N) := by
  refine ⟨?_, bl_construct_wf N hN (by omega), rfl, ?_⟩
  · exact lf_construct_holds (N + 1) (by omega) hfit
  · simp [with_locks.CircularBuffer.construct, ringItems]

theorem sim_step {α : Type} (q : without_locks.LockFreeCircularBuffer α)
    (b : with_locks.CircularBuffer α) (item : α) (r : Request α) (hs : Simulates q b) :
    ∃ o q1 b1, q.serve item r = some (o, q1) ∧ b.serve r = some (o, b1) ∧ Simulates q1 b1 := by
  have hle := hs.wf.size_le
  cases r with
  | enqueue v =>
    by_cases hlt : b.size_ < b.capacity_
    · obtain ⟨q1, he, hq1, hcq, _, hiq⟩ :=
        lf_enqueue_ok q b.size_ v hs.holds (by rw [hs.cap]; omega)
      obtain ⟨b1, heb, hb1, hcb, _, hsb, hib⟩ := bl_enqueue_ok b v hs.wf hlt
      refine ⟨Observation.accepted, q1, b1, ?_, ?_, ⟨?_, hb1, ?_, ?_⟩⟩
      · simp [without_locks.LockFreeCircularBuffer.serve, he]
      · simp [with_locks.CircularBuffer.serve, heb]
      · rw [hsb]; exact hq1
      · rw [hcq, hcb, hs.cap]
      · rw [hib, ← hs.items, ← hiq, hsb]
    · have hfull : b.size_ + 1 = q.capacity_ := by rw [hs.cap]; omega
      refine ⟨Observation.refused, q, b, ?_, ?_, hs⟩
      · simp [without_locks.LockFreeCircularBuffer.serve,
          lf_enqueue_full q b.size_ v hs.holds hfull]
      · simp [with_locks.CircularBuffer.serve, bl_enqueue_blocked b v hlt]
  | dequeue =>
    cases hsz : b.size_ with
    | zero =>
      have hh := hs.holds
      rw [hsz] at hh
      refine ⟨Observation.refused, q, b, ?_, ?_, hs⟩
      · simp [without_locks.LockFreeCircularBuffer.serve, lf_dequeue_empty q item hh]
      · simp [with_locks.CircularBuffer.serve, bl_dequeue_blocked b (by omega)]
    | succ m =>
      have hh := hs.holds
      have hi := hs.items
      rw [hsz] at hh hi
      obtain ⟨x, q1, he, hq1, hcq, _, _, _, hiq⟩ := lf_dequeue_ok q m item hh
      obtain ⟨y, b1, heb, hb1, hcb, hsb, _, hib⟩ := bl_dequeue_ok b hs.wf (by omega)
      have hm : b1.size_ = m := by omega
      rw [hsz, hm] at hib
      rw [hiq, hib] at hi
      have hxy : x = y := by injection hi
      have htl : ringItems q1.buffer_ q1.capacity_ q1.head_ m =
          ringItems b1.buffer_ b1.capacity_ b1.head_ m := by injection hi
      subst hxy
      refine ⟨Observation.delivered x, q1, b1, ?_, ?_, ⟨?_, hb1, ?_, ?_⟩⟩
      · simp [without_locks.LockFreeCircularBuffer.serve, he]
      · simp [with_locks.CircularBuffer.serve, heb]
      · rw [hm]; exact hq1
      · rw [hcq, hcb, hs.cap]
      · rw [hm]; exact htl

theorem sim_serveAll {α : Type} (item : α) (rs : List (Request α)) :
    ∀ (q : without_locks.LockFreeCircularBuffer α) (b : with_locks.CircularBuffer α),
      Simulates q b →
      ∃ os, q.serveAll item rs = some os ∧ b.serveAll rs = some os ∧
        os.length = rs.length := by
  induction rs with
  | nil => intro q b _; exact ⟨[], rfl, rfl, rfl⟩
  | cons r rs ih =>
    intro q b hs
    obtain ⟨o, q1, b1, hq, hb, hs1⟩ := sim_step q b item r hs
    obtain ⟨os, hqs, hbs, hl⟩ := ih q1 b1 hs1
    refine ⟨o :: os, ?_, ?_, by simp [hl]⟩
    · simp [without_locks.LockFreeCircularBuffer.serveAll, hq, hqs]
    · simp [with_locks.CircularBuffer.serveAll, hb, hbs]

/-- C19. The two variants are observationally equivalent up to one slot. For every `N >= 1`
(with `N + 1` a `size_t`) and every finite sequence of `enqueue(v)`/`dequeue` requests, a
freshly constructed `LockFreeCircularBuffer` of capacity `N + 1` and a freshly constructed
`CircularBuffer` of capacity `N` give, request by request, the same observations: the lock-free
call returns `false` exactly where the blocking call finds its wait predicate false (it would
suspend, and is left out), and elsewhere both succeed and each `dequeue` delivers the same
value. -/
theorem variants_equivalent_up_to_one_slot {α : Type} [Inhabited α] (N : Nat)
    (requests : List (Request α)) (item : α)
    (hN : 1 ≤ N) (hfit : N + 1 < SIZE_MOD) :
    ∃ os, (without_locks.LockFreeCircularBuffer.construct (N + 1)).serveAll item requests
        = some os ∧
      (with_locks.CircularBuffer.construct N).serveAll requests = some os ∧
      os.length = requests.length :=
  sim_serveAll item requests _ _ (sim_fresh N hN hfit)

/-- Witness for C19: `N = 2` (lock-free capacity 3 against blocking capacity 2) and seven
requests, of which the third enqueue and the third dequeue are refused by both. -/
theorem variants_equivalent_up_to_one_slot_witness :
    (1 ≤ 2 ∧ 2 + 1 < SIZE_MOD) ∧
    (∃ os, (without_locks.LockFreeCircularBuffer.construct (2 + 1)).serveAll (0 : Int)
        [Request.enqueue 1, Request.enqueue 2, Request.enqueue 3, Request.dequeue,
          Request.dequeue, Request.dequeue, Request.enqueue 4] = some os ∧
      (with_locks.CircularBuffer.construct 2).serveAll
        [Request.enqueue 1, Request.enqueue 2, Request.enqueue 3, Request.dequeue,
          Request.dequeue, Request.dequeue, Request.enqueue 4] = some os ∧
      os.length = [Request.enqueue (1 : Int), Request.enqueue 2, Request.enqueue 3,
        Request.dequeue, Request.dequeue, Request.dequeue, Request.enqueue 4].length) ∧
    (with_locks.CircularBuffer.construct 2).serveAll
        [Request.enqueue (1 : Int), Request.enqueue 2, Request.enqueue 3, Request.dequeue,
          Request.dequeue, Request.dequeue, Request.enqueue 4] =
      some [Observation.accepted, Observation.accepted, Observation.refused,
        Observation.delivered 1, Observation.delivered 2, Observation.refused,
        Observation.accepted] :=
  ⟨⟨by decide, by decide⟩,
    variants_equivalent_up_to_one_slot 2 _ 0 (by decide) (by decide), by decide⟩
